import Mathlib

/-!
Verification of the image-to-solution pipeline of this repository.

We shallowly embed the string-processing core of the two vision entry
points (`leetcode_vision_solver.py`, `gemini_leetcode_solver.py`) and of
the OCR pipeline (`src/image_processor.py`, `src/problem_parser.py`,
`src/code_generator.py`, `src/camera_stream.py`), and prove the testable
properties stated in the specification.

Text is modelled as `List Char` (Python `str`), so that every operation
is executable and every concrete evaluation can be checked by `decide`.
-/

namespace Spec2Proof

/-- Python strings are modelled as lists of characters. -/
abbrev Text := List Char

/-- Coerce a Lean string literal into the `Text` model. -/
def str (s : String) : Text := s.data

def btick : Char := Char.ofNat 96

/-- The character `\x7b` (left curly bracket). -/
def lbrace : Char := Char.ofNat 123

/-- The character `\x7d` (right curly bracket). -/
def rbrace : Char := Char.ofNat 125

/-- Python `str.isspace` set used by `str.strip()`:
space, tab, newline, carriage return, vertical tab, form feed. -/
def pyIsSpace (c : Char) : Bool :=
  c == ' ' || c == '\t' || c == '\n' || c == '\r' ||
  c == Char.ofNat 11 || c == Char.ofNat 12

/-- Python `str.strip()` with no argument: remove leading and trailing
whitespace. -/
def pyStrip (t : Text) : Text :=
  ((t.dropWhile pyIsSpace).reverse.dropWhile pyIsSpace).reverse

/-- First index at which `pat` occurs in the text, scanning left to right
(`str.find` returning an option instead of `-1`). -/
def findSub (pat : Text) : Text → Option Nat
  | [] => if pat.isEmpty then some 0 else none
  | c :: rest =>
    if pat.isPrefixOf (c :: rest) then some 0
    else (findSub pat rest).map (· + 1)

/-- Python substring membership `pat in s`. -/
def containsSub (s pat : Text) : Bool := (findSub pat s).isSome

/-- Fuelled worker for `splitOnSub`; the fuel is an upper bound on the
length of the text still to be scanned. -/
def splitGo (sep : Text) : Nat → Text → List Text
  | _, [] => [[]]
  | 0, s => [s]
  | fuel + 1, c :: rest =>
    if sep.isPrefixOf (c :: rest) then
      [] :: splitGo sep fuel (rest.drop (sep.length - 1))
    else
      match splitGo sep fuel rest with
      | [] => [[c]]
      | chunk :: more => (c :: chunk) :: more

/-- Python `s.split(sep)` for a non-empty separator: split on
non-overlapping occurrences of `sep`, scanning left to right, keeping
empty chunks. -/
def splitOnSub (sep s : Text) : List Text := splitGo sep s.length s

/-- Python `s.find(c)` for a single-character needle: index of the first
occurrence, `-1` when absent. -/
def pyFindChar (t : Text) (c : Char) : Int :=
  match findSub [c] t with
  | some i => (i : Int)
  | none => -1

/-- Python `s.rfind(c)` for a single-character needle: index of the last
occurrence, `-1` when absent. -/
def pyRFindChar (t : Text) (c : Char) : Int :=
  match findSub [c] t.reverse with
  | some i => (t.length : Int) - 1 - (i : Int)
  | none => -1

/-- Python slice `t[a:b]` for non-negative bounds. -/
def pySlice (t : Text) (a b : Int) : Text :=
  (t.take b.toNat).drop a.toNat

theorem containsSub_nil (pat : Text) : containsSub [] pat = pat.isEmpty := by
  cases pat <;> simp [containsSub, findSub]

theorem containsSub_cons (c : Char) (rest pat : Text) :
    containsSub (c :: rest) pat =
      (pat.isPrefixOf (c :: rest) || containsSub rest pat) := by
  simp only [containsSub, findSub]
  by_cases h : pat.isPrefixOf (c :: rest) <;> simp [h]

theorem containsSub_of_isPrefixOf {s pat : Text} (h : pat.isPrefixOf s = true) :
    containsSub s pat = true := by
  cases s with
  | nil =>
    cases pat with
    | nil => simp [containsSub_nil]
    | cons a as => simp [List.isPrefixOf] at h
  | cons c rest => simp [containsSub_cons, h]

theorem isPrefixOf_exists_append : ∀ (l₁ l₂ : Text), l₁.isPrefixOf l₂ = true ↔ ∃ t, l₁ ++ t = l₂ := by
  intro l₁
  induction l₁ with
  | nil =>
    intro l₂
    simp [List.isPrefixOf]
  | cons a l ih =>
    intro l₂
    cases l₂ with
    | nil => simp [List.isPrefixOf]
    | cons b l₂' =>
      simp only [List.isPrefixOf, Bool.and_eq_true, beq_iff_eq]
      constructor
      · rintro ⟨rfl, h⟩
        rcases (ih l₂').mp h with ⟨t, ht⟩
        exact ⟨t, by rw [List.cons_append, ht]⟩
      · rintro ⟨t, ht⟩
        rw [List.cons_append] at ht
        injection ht with h1 h2
        exact ⟨h1, (ih l₂').mpr ⟨t, h2⟩⟩

theorem containsSub_iff (s pat : Text) :
    containsSub s pat = true ↔ ∃ p q, s = p ++ pat ++ q := by
  induction s with
  | nil =>
    rw [containsSub_nil]
    constructor
    · intro h
      refine ⟨[], [], ?_⟩
      rw [List.isEmpty_iff] at h
      simp [h]
    · rintro ⟨p, q, hpq⟩
      have hlen := congrArg List.length hpq
      simp at hlen
      rw [List.isEmpty_iff, ← List.length_eq_zero]
      omega
  | cons c rest ih =>
    rw [containsSub_cons]
    constructor
    · intro h
      rcases Bool.or_eq_true_iff.mp h with h1 | h1
      · rcases ((isPrefixOf_exists_append _ _).mp h1) with ⟨t, ht⟩
        exact ⟨[], t, by simp [← ht]⟩
      · rcases ih.mp h1 with ⟨p, q, hpq⟩
        exact ⟨c :: p, q, by simp [hpq]⟩
    · rintro ⟨p, q, hpq⟩
      cases p with
      | nil =>
        apply Bool.or_eq_true_iff.mpr
        left
        apply (isPrefixOf_exists_append _ _).mpr
        exact ⟨q, by simpa using hpq.symm⟩
      | cons a p' =>
        apply Bool.or_eq_true_iff.mpr
        right
        apply ih.mpr
        refine ⟨p', q, ?_⟩
        have h' : c = a ∧ rest = p' ++ (pat ++ q) := by simpa using hpq
        rw [h'.2, List.append_assoc]

theorem containsSub_append_of_not_mem (p t : Text) (d : Char) (sep' : Text)
    (hp : d ∉ p) :
    containsSub (p ++ t) (d :: sep') = containsSub t (d :: sep') := by
  induction p with
  | nil => rfl
  | cons a p' ih =>
    have ha : a ≠ d := fun h => hp (by simp [h])
    have hd : (d == a) = false := by
      simp only [beq_eq_false_iff_ne]
      exact fun h => ha h.symm
    rw [List.cons_append, containsSub_cons]
    simp only [List.isPrefixOf, hd, Bool.false_and, Bool.false_or]
    exact ih (fun h => hp (by simp [h]))

theorem containsSub_singleton (s : Text) (c : Char) :
    containsSub s [c] = true ↔ c ∈ s := by
  induction s with
  | nil => simp [containsSub_nil]
  | cons a rest ih =>
    rw [containsSub_cons]
    simp [List.isPrefixOf, ih]

theorem splitGo_nil (sep : Text) (fuel : Nat) : splitGo sep fuel [] = [[]] := by
  cases fuel <;> rfl

theorem splitGo_cons_pos (sep : Text) (fuel : Nat) (c : Char) (rest : Text)
    (h : sep.isPrefixOf (c :: rest) = true) :
    splitGo sep (fuel + 1) (c :: rest) =
      [] :: splitGo sep fuel (rest.drop (sep.length - 1)) := by
  simp [splitGo, h]

theorem splitGo_cons_neg (sep : Text) (fuel : Nat) (c : Char) (rest : Text)
    (h : sep.isPrefixOf (c :: rest) = false) :
    splitGo sep (fuel + 1) (c :: rest) =
      match splitGo sep fuel rest with
      | [] => [[c]]
      | chunk :: more => (c :: chunk) :: more := by
  simp [splitGo, h]

theorem splitGo_congr (sep : Text) :
    ∀ f₁ f₂ s, s.length ≤ f₁ → s.length ≤ f₂ →
      splitGo sep f₁ s = splitGo sep f₂ s := by
  intro f₁
  induction f₁ with
  | zero =>
    intro f₂ s h1 _h2
    have : s = [] := List.length_eq_zero.mp (Nat.le_zero.mp h1)
    subst this
    rw [splitGo_nil, splitGo_nil]
  | succ f ih =>
    intro f₂ s h1 h2
    cases s with
    | nil => rw [splitGo_nil, splitGo_nil]
    | cons c rest =>
      cases f₂ with
      | zero => simp at h2
      | succ g =>
        by_cases hpre : sep.isPrefixOf (c :: rest) = true
        · rw [splitGo_cons_pos sep f c rest hpre, splitGo_cons_pos sep g c rest hpre]
          have hlen : (rest.drop (sep.length - 1)).length ≤ f := by
            simp only [List.length_drop]
            simp at h1
            omega
          have hlen2 : (rest.drop (sep.length - 1)).length ≤ g := by
            simp only [List.length_drop]
            simp at h2
            omega
          rw [ih g _ hlen hlen2]
        · rw [Bool.not_eq_true] at hpre
          rw [splitGo_cons_neg sep f c rest hpre, splitGo_cons_neg sep g c rest hpre]
          have hlen : rest.length ≤ f := by simp at h1; omega
          have hlen2 : rest.length ≤ g := by simp at h2; omega
          rw [ih g rest hlen hlen2]

theorem splitGo_eq_splitOnSub (sep : Text) (fuel : Nat) (s : Text)
    (h : s.length ≤ fuel) : splitGo sep fuel s = splitOnSub sep s :=
  splitGo_congr sep fuel s.length s h (Nat.le_refl _)

theorem splitOnSub_append_sep (d : Char) (sep' m : Text) :
    splitOnSub (d :: sep') ((d :: sep') ++ m) = [] :: splitOnSub (d :: sep') m := by
  have hlen : ((d :: sep') ++ m).length = sep'.length + m.length + 1 := by
    simp
  rw [splitOnSub, hlen]
  have hpre : (d :: sep').isPrefixOf (d :: (sep' ++ m)) = true := by
    apply (isPrefixOf_exists_append _ _).mpr
    exact ⟨m, by simp⟩
  rw [show (d :: sep') ++ m = d :: (sep' ++ m) from rfl]
  rw [splitGo_cons_pos _ _ _ _ hpre]
  have hdrop : (sep' ++ m).drop ((d :: sep').length - 1) = m := by
    simp [List.drop_left]
  rw [hdrop]
  congr 1
  exact splitGo_eq_splitOnSub _ _ _ (by omega)

theorem splitOnSub_eq_single (sep m : Text) (h : containsSub m sep = false) :
    splitOnSub sep m = [m] := by
  suffices H : ∀ fuel m, m.length ≤ fuel → containsSub m sep = false →
      splitGo sep fuel m = [m] by
    exact H m.length m (Nat.le_refl _) h
  intro fuel
  induction fuel with
  | zero =>
    intro m hm _hc
    have : m = [] := List.length_eq_zero.mp (Nat.le_zero.mp hm)
    subst this
    rfl
  | succ f ih =>
    intro m hm hc
    cases m with
    | nil => rfl
    | cons c rest =>
      rw [containsSub_cons, Bool.or_eq_false_iff] at hc
      obtain ⟨h1, h2⟩ := hc
      rw [splitGo_cons_neg sep f c rest h1]
      rw [ih rest (by simp at hm; omega) h2]

theorem splitOnSub_mid (d : Char) (sep' p rest : Text) (hp : d ∉ p) :
    splitOnSub (d :: sep') (p ++ (d :: sep') ++ rest) =
      p :: splitOnSub (d :: sep') rest := by
  suffices H : ∀ fuel p, (p ++ (d :: sep') ++ rest).length ≤ fuel → d ∉ p →
      splitGo (d :: sep') fuel (p ++ (d :: sep') ++ rest) =
        p :: splitOnSub (d :: sep') rest by
    exact H _ p (Nat.le_refl _) hp
  intro fuel
  induction fuel with
  | zero =>
    intro p hlen _hp
    exfalso
    simp at hlen
  | succ f ih =>
    intro p hlen hp'
    cases p with
    | nil =>
      have hpre : (d :: sep').isPrefixOf (d :: (sep' ++ rest)) = true := by
        apply (isPrefixOf_exists_append _ _).mpr
        exact ⟨rest, by simp⟩
      rw [show ([] : Text) ++ (d :: sep') ++ rest = d :: (sep' ++ rest) by simp]
      rw [splitGo_cons_pos _ _ _ _ hpre]
      have hdrop : (sep' ++ rest).drop ((d :: sep').length - 1) = rest := by
        simp [List.drop_left]
      rw [hdrop]
      congr 1
      apply splitGo_eq_splitOnSub
      simp at hlen
      omega
    | cons a p' =>
      have ha : a ≠ d := fun h => hp' (by simp [h])
      have hd : (d :: sep').isPrefixOf (a :: (p' ++ (d :: sep') ++ rest)) = false := by
        simp only [List.isPrefixOf]
        have : (d == a) = false := by
          simp only [beq_eq_false_iff_ne]
          exact fun h => ha h.symm
        simp [this]
      rw [show (a :: p') ++ (d :: sep') ++ rest = a :: (p' ++ (d :: sep') ++ rest) by simp]
      rw [splitGo_cons_neg _ _ _ _ hd]
      rw [ih p' (by simp at hlen ⊢; omega) (fun h => hp' (by simp [h]))]

theorem pyStrip_cons_ws (c : Char) (hc : pyIsSpace c = true) (s : Text) :
    pyStrip (c :: s) = pyStrip s := by
  simp [pyStrip, List.dropWhile, hc]

theorem pyStrip_append_ws (c : Char) (hc : pyIsSpace c = true) (s : Text) :
    pyStrip (s ++ [c]) = pyStrip s := by
  unfold pyStrip
  rw [List.dropWhile_append]
  by_cases he : (s.dropWhile pyIsSpace).isEmpty = true
  · rw [if_pos he]
    simp [List.dropWhile, hc, List.isEmpty_iff.mp he]
  · rw [if_neg he, List.reverse_append]
    simp [List.dropWhile, hc]

theorem pyStrip_eq_self (a : Char) (mid : Text) (b : Char)
    (ha : pyIsSpace a = false) (hb : pyIsSpace b = false) :
    pyStrip (a :: (mid ++ [b])) = a :: (mid ++ [b]) := by
  unfold pyStrip
  rw [List.dropWhile_cons_of_neg (by simp [ha])]
  have : (a :: (mid ++ [b])).reverse = b :: (a :: mid).reverse := by
    simp
  rw [this, List.dropWhile_cons_of_neg (by simp [hb])]
  simp

/-! ## A model of Python `json.loads` / serialization

`json.loads` is modelled by a recursive-descent parser over `Text`.
The accepted language is that of Python's `json` module in its default
configuration: the full numeric grammar
`-?(0|[1-9][0-9]*)(\.[0-9]+)?([eE][+-]?[0-9]+)?` with maximal munch,
the constants `NaN`, `Infinity` and `-Infinity`, strings with the
standard escapes in which a `\uXXXX` high surrogate followed by a
`\uXXXX` low surrogate combines into the astral character, and the
four JSON whitespace characters between tokens.  An integer-only
numeric literal becomes an integer; a fractional, exponent or
non-finite literal is kept as `Json.fnum` holding its source text
(Python converts it to a float; no property under study inspects the
numeric value of such a literal, only whether parsing succeeds).
Digits are modelled as ASCII. -/

/-- Structured data (the result of Python `json.loads`).  `fnum` holds
the source text of a numeric literal that Python would represent as a
float. -/
inductive Json where
  | null
  | bool (b : Bool)
  | num (n : Int)
  | fnum (lit : Text)
  | str (s : Text)
  | arr (elems : List Json)
  | obj (members : List (Text × Json))

/-- JSON whitespace accepted between tokens by `json.loads`. -/
def jsonIsWs (c : Char) : Bool :=
  c == ' ' || c == '\t' || c == '\n' || c == '\r'

/-- Skip JSON whitespace. -/
def skipWs (t : Text) : Text := t.dropWhile jsonIsWs

/-- Value of a hexadecimal digit. -/
def hexVal (c : Char) : Option Nat :=
  if '0' ≤ c ∧ c ≤ '9' then some (c.toNat - 48)
  else if 'a' ≤ c ∧ c ≤ 'f' then some (c.toNat - 87)
  else if 'A' ≤ c ∧ c ≤ 'F' then some (c.toNat - 55)
  else none

/-- Decode a single-character string escape. -/
def escDecode (e : Char) : Option Char :=
  if e = '"' then some '"'
  else if e = '\\' then some '\\'
  else if e = '/' then some '/'
  else if e = 'b' then some (Char.ofNat 8)
  else if e = 'f' then some (Char.ofNat 12)
  else if e = 'n' then some '\n'
  else if e = 'r' then some '\r'
  else if e = 't' then some '\t'
  else none

/-- The characters a pending `\uXXXX` value contributes when the next
token does not pair with it (a lone surrogate; Python keeps the lone
surrogate in the string, which a Lean `Char` cannot hold, so its value
maps to `U+0000` — the set of accepted inputs is unaffected). -/
def surrFlush : Option Nat → Text
  | some v => [Char.ofNat v]
  | none => []

/-- The scanning loop of `json.decoder.py_scanstring` (the opening
quote has been consumed); returns the decoded content and the input
after the closing quote.  Unescaped control characters are rejected, as
in `json.loads` strict mode.  `pend` carries the value of a just-read
`\uXXXX` high surrogate: if the next token is a `\uXXXX` low surrogate
the two combine into the astral character, exactly as in `json.loads`;
otherwise the pending value is emitted on its own and scanning
continues with the next token. -/
def scanstring : Option Nat → Text → Option (Text × Text)
  | _, [] => none
  | pend, c :: rest =>
    if c = '"' then some (surrFlush pend, rest)
    else if c = '\\' then
      match rest with
      | [] => none
      | e :: r2 =>
        if e = 'u' then
          match r2 with
          | h1 :: h2 :: h3 :: h4 :: r6 =>
            match hexVal h1, hexVal h2, hexVal h3, hexVal h4 with
            | some v1, some v2, some v3, some v4 =>
              match pend with
              | some v =>
                if 56320 ≤ ((v1 * 16 + v2) * 16 + v3) * 16 + v4 ∧
                    ((v1 * 16 + v2) * 16 + v3) * 16 + v4 ≤ 57343 then
                  match scanstring none r6 with
                  | some (s, r) =>
                    some (Char.ofNat (65536 + (v - 55296) * 1024 +
                      (((v1 * 16 + v2) * 16 + v3) * 16 + v4 - 56320)) :: s, r)
                  | none => none
                else if 55296 ≤ ((v1 * 16 + v2) * 16 + v3) * 16 + v4 ∧
                    ((v1 * 16 + v2) * 16 + v3) * 16 + v4 ≤ 56319 then
                  match scanstring (some (((v1 * 16 + v2) * 16 + v3) * 16 + v4)) r6 with
                  | some (s, r) => some (Char.ofNat v :: s, r)
                  | none => none
                else
                  match scanstring none r6 with
                  | some (s, r) =>
                    some (Char.ofNat v ::
                      Char.ofNat (((v1 * 16 + v2) * 16 + v3) * 16 + v4) :: s, r)
                  | none => none
              | none =>
                if 55296 ≤ ((v1 * 16 + v2) * 16 + v3) * 16 + v4 ∧
                    ((v1 * 16 + v2) * 16 + v3) * 16 + v4 ≤ 56319 then
                  scanstring (some (((v1 * 16 + v2) * 16 + v3) * 16 + v4)) r6
                else
                  match scanstring none r6 with
                  | some (s, r) =>
                    some (Char.ofNat (((v1 * 16 + v2) * 16 + v3) * 16 + v4) :: s, r)
                  | none => none
            | _, _, _, _ => none
          | _ => none
        else
          match escDecode e with
          | some d =>
            match scanstring none r2 with
            | some (s, r) => some (surrFlush pend ++ d :: s, r)
            | none => none
          | none => none
    else if c.toNat < 32 then none
    else
      match scanstring none rest with
      | some (s, r) => some (surrFlush pend ++ c :: s, r)
      | none => none

/-- Parse the body of a JSON string literal (the opening quote has been
consumed). -/
def parseStringBody (t : Text) : Option (Text × Text) := scanstring none t

/-- Parse a numeric literal with the maximal-munch grammar of Python
json's NUMBER_RE, `-?(0|[1-9][0-9]*)(\.[0-9]+)?([eE][+-]?[0-9]+)?`:
the longest match is consumed and whatever follows is left for the
surrounding parser, exactly as in `json.loads` (so `01` parses as `0`
with `1` left over, and fails later for the same reason Python fails).
An integer-only literal yields its integer value; a literal with a
fractional or exponent part yields `Json.fnum` holding its text. -/
def parseNumber (t : Text) : Option (Json × Text) :=
  let sign : Bool × Text :=
    match t with
    | '-' :: r => (true, r)
    | _ => (false, t)
  match sign.2 with
  | [] => none
  | c :: r =>
    if c.isDigit then
      let ip : Text × Text :=
        if c = '0' then ([c], r)
        else (c :: r.takeWhile Char.isDigit, r.dropWhile Char.isDigit)
      let fp : Text × Text :=
        match ip.2 with
        | '.' :: d :: fr =>
          if d.isDigit then
            ('.' :: d :: fr.takeWhile Char.isDigit, fr.dropWhile Char.isDigit)
          else ([], ip.2)
        | _ => ([], ip.2)
      let ep : Text × Text :=
        match fp.2 with
        | e :: es =>
          if e = 'e' ∨ e = 'E' then
            match es with
            | s0 :: es2 =>
              if s0.isDigit then
                (e :: s0 :: es2.takeWhile Char.isDigit, es2.dropWhile Char.isDigit)
              else if s0 = '+' ∨ s0 = '-' then
                match es2 with
                | d0 :: es3 =>
                  if d0.isDigit then
                    (e :: s0 :: d0 :: es3.takeWhile Char.isDigit,
                      es3.dropWhile Char.isDigit)
                  else ([], fp.2)
                | [] => ([], fp.2)
              else ([], fp.2)
            | [] => ([], fp.2)
          else ([], fp.2)
        | [] => ([], fp.2)
      if fp.1.isEmpty ∧ ep.1.isEmpty then
        let v : Int := ip.1.foldl (fun a c => a * 10 + ((c.toNat : Int) - 48)) 0
        some (Json.num (if sign.1 then -v else v), ip.2)
      else
        some (Json.fnum ((if sign.1 then ['-'] else []) ++ ip.1 ++ fp.1 ++ ep.1),
          ep.2)
    else none

mutual

/-- Parse a JSON value (leading whitespace already skipped).  The fuel
decreases at every recursive call; `Json.parse` supplies enough for any
input. -/
def parseValue : Nat → Text → Option (Json × Text)
  | 0, _ => none
  | fuel + 1, t =>
    match t with
    | [] => none
    | c :: rest =>
      if c = '"' then
        match parseStringBody rest with
        | some (s, r) => some (Json.str s, r)
        | none => none
      else if c = lbrace then
        match skipWs rest with
        | d :: r2 =>
          if d = rbrace then some (Json.obj [], r2)
          else
            match parseMembers fuel (d :: r2) with
            | some (ms, r) => some (Json.obj ms, r)
            | none => none
        | [] => none
      else if c = '[' then
        match skipWs rest with
        | d :: r2 =>
          if d = ']' then some (Json.arr [], r2)
          else
            match parseElems fuel (d :: r2) with
            | some (es, r) => some (Json.arr es, r)
            | none => none
        | [] => none
      else if c = 't' then
        if (str "rue").isPrefixOf rest then some (Json.bool true, rest.drop 3)
        else none
      else if c = 'f' then
        if (str "alse").isPrefixOf rest then some (Json.bool false, rest.drop 4)
        else none
      else if c = 'n' then
        if (str "ull").isPrefixOf rest then some (Json.null, rest.drop 3)
        else none
      else if c = 'N' then
        if (str "aN").isPrefixOf rest then some (Json.fnum (str "NaN"), rest.drop 2)
        else none
      else if c = 'I' then
        if (str "nfinity").isPrefixOf rest then
          some (Json.fnum (str "Infinity"), rest.drop 7)
        else none
      else
        match parseNumber (c :: rest) with
        | some res => some res
        | none =>
          if c = '-' ∧ (str "Infinity").isPrefixOf rest then
            some (Json.fnum (str "-Infinity"), rest.drop 8)
          else none

/-- Parse a non-empty member list of a JSON object, up to and including
the closing bracket. -/
def parseMembers : Nat → Text → Option (List (Text × Json) × Text)
  | 0, _ => none
  | fuel + 1, t =>
    match t with
    | c :: rest =>
      if c = '"' then
        match parseStringBody rest with
        | some (k, r1) =>
          match skipWs r1 with
          | c2 :: r2 =>
            if c2 = ':' then
              match parseValue fuel (skipWs r2) with
              | some (v, r3) =>
                match skipWs r3 with
                | d :: r4 =>
                  if d = ',' then
                    match parseMembers fuel (skipWs r4) with
                    | some (ms, r5) => some ((k, v) :: ms, r5)
                    | none => none
                  else if d = rbrace then some ([(k, v)], r4)
                  else none
                | [] => none
              | none => none
            else none
          | [] => none
        | none => none
      else none
    | [] => none

/-- Parse a non-empty element list of a JSON array, up to and including
the closing bracket. -/
def parseElems : Nat → Text → Option (List Json × Text)
  | 0, _ => none
  | fuel + 1, t =>
    match parseValue fuel t with
    | some (v, r1) =>
      match skipWs r1 with
      | d :: r2 =>
        if d = ',' then
          match parseElems fuel (skipWs r2) with
          | some (es, r3) => some (v :: es, r3)
          | none => none
        else if d = ']' then some ([v], r2)
        else none
      | [] => none
    | none => none

end

/-- Python `json.loads`: parse a complete document, requiring the whole
input to be consumed up to trailing whitespace. -/
def Json.parse (t : Text) : Option Json :=
  match parseValue (2 * t.length + 2) (skipWs t) with
  | some (v, r) => if skipWs r = [] then some v else none
  | none => none

/-- Lower-case hexadecimal digit. -/
def hexDigitChar (n : Nat) : Char :=
  if n < 10 then Char.ofNat (48 + n) else Char.ofNat (87 + n)

/-- Serialize one character of a JSON string (standard escapes, other
control characters as `\u00XX`, all other characters verbatim). -/
def escChar (c : Char) : Text :=
  if c = '"' then ['\\', '"']
  else if c = '\\' then ['\\', '\\']
  else if c = Char.ofNat 8 then ['\\', 'b']
  else if c = '\t' then ['\\', 't']
  else if c = '\n' then ['\\', 'n']
  else if c = Char.ofNat 12 then ['\\', 'f']
  else if c = '\r' then ['\\', 'r']
  else if c.toNat < 32 then
    ['\\', 'u', '0', '0', hexDigitChar (c.toNat / 16), hexDigitChar (c.toNat % 16)]
  else [c]

/-- Serialized body of a JSON string literal. -/
def encStrBody (s : Text) : Text := s.foldr (fun c acc => escChar c ++ acc) []

/-- Serialized JSON string literal. -/
def encStr (s : Text) : Text := '"' :: (encStrBody s ++ ['"'])

/-- One test case extracted from a problem image
(`{operation, input, expected_output}` in the repository's data model). -/
structure TestCase where
  operation : Text
  input : Text
  expected_output : Text
deriving DecidableEq

/-- The structured problem data produced by `ProblemParser.parse_content`
(`{problem_statement, function_signatures, test_cases}`). -/
structure ProblemData where
  problem_statement : Text
  function_signatures : List Text
  test_cases : List TestCase
deriving DecidableEq

/-- The full decoded result of a model reply
(`{problem_statement, function_signatures, test_cases, solution}`). -/
structure SolutionResult where
  problem_statement : Text
  function_signatures : List Text
  test_cases : List TestCase
  solution : Text
deriving DecidableEq

/-- The structured-data value corresponding to a test case. -/
def TestCase.toJson (t : TestCase) : Json :=
  Json.obj [(str "operation", Json.str t.operation),
            (str "input", Json.str t.input),
            (str "expected_output", Json.str t.expected_output)]

/-- The structured-data value corresponding to a `SolutionResult`. -/
def SolutionResult.toJson (x : SolutionResult) : Json :=
  Json.obj [(str "problem_statement", Json.str x.problem_statement),
            (str "function_signatures", Json.arr (x.function_signatures.map Json.str)),
            (str "test_cases", Json.arr (x.test_cases.map TestCase.toJson)),
            (str "solution", Json.str x.solution)]

/-- Comma-separated serialization of a list of JSON strings. -/
def encStrList : List Text → Text
  | [] => []
  | [x] => encStr x
  | x :: y :: r => encStr x ++ ',' :: encStrList (y :: r)

/-- Compact serialization of one test-case object. -/
def TestCase.encode (t : TestCase) : Text :=
  lbrace :: (encStr (str "operation") ++ ':' ::
    (encStr t.operation ++ ',' :: (encStr (str "input") ++ ':' ::
      (encStr t.input ++ ',' :: (encStr (str "expected_output") ++ ':' ::
        (encStr t.expected_output ++ [rbrace]))))))

/-- Comma-separated serialization of a list of test-case objects. -/
def encTcList : List TestCase → Text
  | [] => []
  | [x] => x.encode
  | x :: y :: r => x.encode ++ ',' :: encTcList (y :: r)

/-- Compact JSON serialization of a `SolutionResult`, in the field order
used throughout the repository (this is the shape shown in the
specification's round-trip example). -/
def SolutionResult.encode (x : SolutionResult) : Text :=
  lbrace :: (encStr (str "problem_statement") ++ ':' ::
    (encStr x.problem_statement ++ ',' :: (encStr (str "function_signatures") ++ ':' ::
      ('[' :: (encStrList x.function_signatures ++ ']' ::
        (',' :: (encStr (str "test_cases") ++ ':' ::
          ('[' :: (encTcList x.test_cases ++ ']' ::
            (',' :: (encStr (str "solution") ++ ':' ::
              (encStr x.solution ++ [rbrace]))))))))))))

/-! ### The serializer/parser round trip -/

theorem skipWs_cons_of_neg (c : Char) (r : Text) (h : jsonIsWs c = false) :
    skipWs (c :: r) = c :: r := by
  simp [skipWs, List.dropWhile, h]

theorem hexVal_hexDigitChar (n : Nat) (h : n < 16) :
    hexVal (hexDigitChar n) = some n := by
  interval_cases n <;> decide

theorem parseStringBody_escChar (c : Char) (t tl r : Text)
    (ht : parseStringBody t = some (tl, r)) :
    parseStringBody (escChar c ++ t) = some (c :: tl, r) := by
  have ht' : scanstring none t = some (tl, r) := ht
  by_cases h1 : c = '"'
  · subst h1
    show scanstring none ('\\' :: '"' :: t) = _
    rw [scanstring.eq_def]
    simp [escDecode, ht', surrFlush]
  by_cases h2 : c = '\\'
  · subst h2
    show scanstring none ('\\' :: '\\' :: t) = _
    rw [scanstring.eq_def]
    simp [escDecode, ht', surrFlush]
  by_cases h3 : c = Char.ofNat 8
  · subst h3
    show scanstring none ('\\' :: 'b' :: t) = _
    rw [scanstring.eq_def]
    simp [escDecode, ht', surrFlush]
  by_cases h4 : c = '\t'
  · subst h4
    show scanstring none ('\\' :: 't' :: t) = _
    rw [scanstring.eq_def]
    simp [escDecode, ht', surrFlush]
  by_cases h5 : c = '\n'
  · subst h5
    show scanstring none ('\\' :: 'n' :: t) = _
    rw [scanstring.eq_def]
    simp [escDecode, ht', surrFlush]
  by_cases h6 : c = Char.ofNat 12
  · subst h6
    show scanstring none ('\\' :: 'f' :: t) = _
    rw [scanstring.eq_def]
    simp [escDecode, ht', surrFlush]
  by_cases h7 : c = '\r'
  · subst h7
    show scanstring none ('\\' :: 'r' :: t) = _
    rw [scanstring.eq_def]
    simp [escDecode, ht', surrFlush]
  by_cases h8 : c.toNat < 32
  · have hhi : c.toNat / 16 < 16 := by omega
    have hlo : c.toNat % 16 < 16 := by omega
    have hesc : escChar c ++ t =
        '\\' :: 'u' :: '0' :: '0' ::
          hexDigitChar (c.toNat / 16) :: hexDigitChar (c.toNat % 16) :: t := by
      simp [escChar, h1, h2, h3, h4, h5, h6, h7, h8]
    rw [hesc]
    show scanstring none ('\\' :: 'u' :: '0' :: '0' ::
      hexDigitChar (c.toNat / 16) :: hexDigitChar (c.toNat % 16) :: t) = _
    rw [scanstring.eq_def]
    have e0 : hexVal '0' = some 0 := by decide
    simp [e0, hexVal_hexDigitChar _ hhi, hexVal_hexDigitChar _ hlo, ht']
    rw [if_neg (by omega)]
    simp [ht']
    rw [show c.toNat / 16 * 16 + c.toNat % 16 = c.toNat by omega, Char.ofNat_toNat]
  · have hesc : escChar c ++ t = c :: t := by
      simp [escChar, h1, h2, h3, h4, h5, h6, h7, h8]
    rw [hesc]
    show scanstring none (c :: t) = _
    rw [scanstring.eq_def]
    simp [h1, h2, h8, ht', surrFlush]

theorem parseStringBody_encStrBody (s : Text) (r : Text) :
    parseStringBody (encStrBody s ++ '"' :: r) = some (s, r) := by
  induction s with
  | nil =>
    show scanstring none ('"' :: r) = _
    rw [scanstring.eq_def]
    simp [surrFlush]
  | cons c s' ih =>
    have hshape : encStrBody (c :: s') ++ '"' :: r
        = escChar c ++ (encStrBody s' ++ '"' :: r) := by
      simp [encStrBody, List.append_assoc]
    rw [hshape]
    exact parseStringBody_escChar c _ _ _ ih

theorem parseValue_encStr (f : Nat) (s r : Text) :
    parseValue (f + 1) (encStr s ++ r) = some (Json.str s, r) := by
  have hshape : encStr s ++ r = '"' :: (encStrBody s ++ '"' :: r) := by
    simp [encStr]
  rw [hshape]
  simp [parseValue, parseStringBody_encStrBody]

theorem parseElems_last (g : Nat) (tV : Text) (v : Json) (rest : Text)
    (hv : parseValue g tV = some (v, ']' :: rest)) :
    parseElems (g + 1) tV = some ([v], rest) := by
  have h1 : skipWs (']' :: rest) = ']' :: rest := skipWs_cons_of_neg _ _ (by decide)
  simp [parseElems, hv, h1]

theorem parseElems_cons (g : Nat) (tV : Text) (v : Json) (rest2 : Text)
    (es : List Json) (r3 : Text)
    (hv : parseValue g tV = some (v, ',' :: rest2))
    (hr : skipWs rest2 = rest2)
    (he : parseElems g rest2 = some (es, r3)) :
    parseElems (g + 1) tV = some (v :: es, r3) := by
  have h1 : skipWs (',' :: rest2) = ',' :: rest2 := skipWs_cons_of_neg _ _ (by decide)
  simp [parseElems, hv, h1, hr, he]

theorem parseMembers_cons (g : Nat) (k tV : Text) (v : Json) (rest2 : Text)
    (ms : List (Text × Json)) (r5 : Text)
    (htV : skipWs tV = tV)
    (hv : parseValue g tV = some (v, ',' :: rest2))
    (hr : skipWs rest2 = rest2)
    (hm : parseMembers g rest2 = some (ms, r5)) :
    parseMembers (g + 1) (encStr k ++ ':' :: tV) = some ((k, v) :: ms, r5) := by
  have hshape : encStr k ++ ':' :: tV = '"' :: (encStrBody k ++ '"' :: (':' :: tV)) := by
    simp [encStr]
  rw [hshape]
  have hk := parseStringBody_encStrBody k (':' :: tV)
  have h1 : skipWs (':' :: tV) = ':' :: tV := skipWs_cons_of_neg _ _ (by decide)
  have h2 : skipWs (',' :: rest2) = ',' :: rest2 := skipWs_cons_of_neg _ _ (by decide)
  simp [parseMembers, hk, h1, htV, hv, h2, hr, hm]

theorem parseMembers_last (g : Nat) (k tV : Text) (v : Json) (rest : Text)
    (htV : skipWs tV = tV)
    (hv : parseValue g tV = some (v, rbrace :: rest)) :
    parseMembers (g + 1) (encStr k ++ ':' :: tV) = some ([(k, v)], rest) := by
  have hshape : encStr k ++ ':' :: tV = '"' :: (encStrBody k ++ '"' :: (':' :: tV)) := by
    simp [encStr]
  rw [hshape]
  have hk := parseStringBody_encStrBody k (':' :: tV)
  have h1 : skipWs (':' :: tV) = ':' :: tV := skipWs_cons_of_neg _ _ (by decide)
  have h2 : skipWs (rbrace :: rest) = rbrace :: rest :=
    skipWs_cons_of_neg _ _ (by decide)
  simp [parseMembers, hk, h1, htV, hv, h2,
    (show rbrace ≠ ',' by decide)]

theorem skipWs_encStr (s r : Text) : skipWs (encStr s ++ r) = encStr s ++ r := by
  have hshape : encStr s ++ r = '"' :: (encStrBody s ++ '"' :: r) := by
    simp [encStr]
  rw [hshape]
  exact skipWs_cons_of_neg _ _ (by decide)

theorem parseValue_arr_nil (g : Nat) (r : Text) :
    parseValue (g + 1) ('[' :: (']' :: r)) = some (Json.arr [], r) := by
  have h1 : skipWs (']' :: r) = ']' :: r := skipWs_cons_of_neg _ _ (by decide)
  simp [parseValue, h1, (show ('[' : Char) ≠ lbrace by decide)]

theorem parseValue_arr_step (g : Nat) (c0 : Char) (tail : Text)
    (es : List Json) (r : Text)
    (hws : jsonIsWs c0 = false) (hc0 : c0 ≠ ']')
    (hbody : parseElems g (c0 :: tail) = some (es, r)) :
    parseValue (g + 1) ('[' :: (c0 :: tail)) = some (Json.arr es, r) := by
  have h1 : skipWs (c0 :: tail) = c0 :: tail := skipWs_cons_of_neg _ _ hws
  simp [parseValue, h1, hc0, hbody, (show ('[' : Char) ≠ lbrace by decide)]

theorem parseValue_obj_step (g : Nat) (c0 : Char) (tail : Text)
    (ms : List (Text × Json)) (r : Text)
    (hws : jsonIsWs c0 = false) (hc0 : c0 ≠ rbrace)
    (hbody : parseMembers g (c0 :: tail) = some (ms, r)) :
    parseValue (g + 1) (lbrace :: (c0 :: tail)) = some (Json.obj ms, r) := by
  have h1 : skipWs (c0 :: tail) = c0 :: tail := skipWs_cons_of_neg _ _ hws
  simp [parseValue, h1, hc0, hbody, (show lbrace ≠ '"' by decide)]

theorem encStrList_cons_append (x : Text) (l' : List Text) (X : Text) :
    encStrList (x :: l') ++ X =
      encStr x ++ (match l' with
        | [] => X
        | _ :: _ => ',' :: (encStrList l' ++ X)) := by
  cases l' <;> simp [encStrList, List.append_assoc]

theorem parseElems_encStrList (f : Nat) (x : Text) (l' : List Text) (r : Text) :
    parseElems (f + (x :: l').length + 1) (encStrList (x :: l') ++ ']' :: r) =
      some ((x :: l').map Json.str, r) := by
  induction l' generalizing f x r with
  | nil =>
    rw [encStrList_cons_append]
    exact parseElems_last (f + 1) _ _ _ (parseValue_encStr f x (']' :: r))
  | cons z l'' ih =>
    rw [encStrList_cons_append]
    show parseElems ((f + (z :: l'').length + 1) + 1) _ = _
    apply parseElems_cons _ _ _ _ _ _
      (parseValue_encStr (f + (z :: l'').length) x _)
    · cases l'' with
      | nil => exact skipWs_encStr z (']' :: r)
      | cons w l''' =>
        rw [encStrList_cons_append]
        exact skipWs_encStr z _
    · exact ih f z r

theorem parseValue_encStrList (f : Nat) (l : List Text) (r : Text) :
    parseValue (f + l.length + 2) ('[' :: (encStrList l ++ ']' :: r)) =
      some (Json.arr (l.map Json.str), r) := by
  cases l with
  | nil => exact parseValue_arr_nil (f + 1) r
  | cons x l' =>
    show parseValue ((f + (x :: l').length + 1) + 1) _ = _
    rw [encStrList_cons_append]
    have hshape : encStr x ++ (match l' with
        | [] => ']' :: r
        | _ :: _ => ',' :: (encStrList l' ++ ']' :: r)) =
        '"' :: (encStrBody x ++ '"' :: (match l' with
          | [] => ']' :: r
          | _ :: _ => ',' :: (encStrList l' ++ ']' :: r))) := by
      simp [encStr]
    rw [hshape]
    apply parseValue_arr_step _ _ _ _ _ (by decide) (by decide)
    rw [← hshape, ← encStrList_cons_append]
    exact parseElems_encStrList f x l' r

theorem encTcList_cons_append (t : TestCase) (l' : List TestCase) (X : Text) :
    encTcList (t :: l') ++ X =
      TestCase.encode t ++ (match l' with
        | [] => X
        | _ :: _ => ',' :: (encTcList l' ++ X)) := by
  cases l' <;> simp [encTcList, List.append_assoc]

theorem TestCase.encode_append (t : TestCase) (r : Text) :
    TestCase.encode t ++ r =
      lbrace :: (encStr (str "operation") ++ ':' ::
        (encStr t.operation ++ ',' :: (encStr (str "input") ++ ':' ::
          (encStr t.input ++ ',' :: (encStr (str "expected_output") ++ ':' ::
            (encStr t.expected_output ++ rbrace :: r)))))) := by
  simp [TestCase.encode, List.append_assoc]

theorem parseValue_encodeTc (f : Nat) (t : TestCase) (r : Text) :
    parseValue (f + 5) (TestCase.encode t ++ r) = some (t.toJson, r) := by
  rw [TestCase.encode_append]
  show parseValue ((f + 4) + 1) _ = _
  have hshape2 : encStr (str "operation") ++ ':' ::
      (encStr t.operation ++ ',' :: (encStr (str "input") ++ ':' ::
        (encStr t.input ++ ',' :: (encStr (str "expected_output") ++ ':' ::
          (encStr t.expected_output ++ rbrace :: r))))) =
      '"' :: (encStrBody (str "operation") ++ '"' :: (':' ::
        (encStr t.operation ++ ',' :: (encStr (str "input") ++ ':' ::
          (encStr t.input ++ ',' :: (encStr (str "expected_output") ++ ':' ::
            (encStr t.expected_output ++ rbrace :: r))))))) := by
    simp [encStr]
  rw [hshape2]
  apply parseValue_obj_step _ _ _ _ _ (by decide) (by decide)
  rw [← hshape2]
  apply parseMembers_cons (f + 3) _ _ _ _ _ _
    (skipWs_encStr _ _)
    (parseValue_encStr (f + 2) t.operation _)
    (skipWs_encStr _ _)
  apply parseMembers_cons (f + 2) _ _ _ _ _ _
    (skipWs_encStr _ _)
    (parseValue_encStr (f + 1) t.input _)
    (skipWs_encStr _ _)
  exact parseMembers_last (f + 1) _ _ _ _
    (skipWs_encStr _ _)
    (parseValue_encStr f t.expected_output _)

theorem TestCase.toJson_def (t : TestCase) :
    t.toJson = Json.obj [(str "operation", Json.str t.operation),
      (str "input", Json.str t.input),
      (str "expected_output", Json.str t.expected_output)] := rfl

theorem parseElems_encTcList (f : Nat) (t : TestCase) (l' : List TestCase) (r : Text) :
    parseElems (f + 6 * (t :: l').length + 1) (encTcList (t :: l') ++ ']' :: r) =
      some ((t :: l').map TestCase.toJson, r) := by
  induction l' generalizing f t r with
  | nil =>
    rw [encTcList_cons_append]
    show parseElems ((f + 6) + 1) _ = _
    exact parseElems_last (f + 6) _ _ _ (parseValue_encodeTc (f + 1) t (']' :: r))
  | cons z l'' ih =>
    rw [encTcList_cons_append]
    show parseElems ((f + 6 * (z :: l'').length + 6) + 1) _ = _
    apply parseElems_cons _ _ _ _ _ _
      (parseValue_encodeTc (f + 6 * (z :: l'').length + 1) t _)
    · cases l'' with
      | nil =>
        rw [encTcList_cons_append, TestCase.encode_append]
        exact skipWs_cons_of_neg _ _ (by decide)
      | cons w l''' =>
        rw [encTcList_cons_append, TestCase.encode_append]
        exact skipWs_cons_of_neg _ _ (by decide)
    · have := ih (f + 5) z r
      rw [show f + 5 + 6 * (z :: l'').length + 1 = f + 6 * (z :: l'').length + 6 by
        simp [List.length_cons]; ring] at this
      exact this

theorem parseValue_encTcList (f : Nat) (l : List TestCase) (r : Text) :
    parseValue (f + 6 * l.length + 2) ('[' :: (encTcList l ++ ']' :: r)) =
      some (Json.arr (l.map TestCase.toJson), r) := by
  cases l with
  | nil => exact parseValue_arr_nil (f + 1) r
  | cons t l' =>
    show parseValue ((f + 6 * (t :: l').length + 1) + 1) _ = _
    rw [encTcList_cons_append, TestCase.encode_append]
    apply parseValue_arr_step _ _ _ _ _ (by decide) (by decide)
    rw [← TestCase.encode_append, ← encTcList_cons_append]
    exact parseElems_encTcList f t l' r

theorem SolutionResult.encodeSol_append (x : SolutionResult) (r : Text) :
    SolutionResult.encode x ++ r =
      lbrace :: (encStr (str "problem_statement") ++ ':' ::
        (encStr x.problem_statement ++ ',' :: (encStr (str "function_signatures") ++ ':' ::
          ('[' :: (encStrList x.function_signatures ++ ']' ::
            (',' :: (encStr (str "test_cases") ++ ':' ::
              ('[' :: (encTcList x.test_cases ++ ']' ::
                (',' :: (encStr (str "solution") ++ ':' ::
                  (encStr x.solution ++ rbrace :: r)))))))))))) := by
  simp [SolutionResult.encode, List.append_assoc]

theorem parseValue_encode (f : Nat) (x : SolutionResult) (r : Text) :
    parseValue (f + x.function_signatures.length + 6 * x.test_cases.length + 9)
      (SolutionResult.encode x ++ r) = some (x.toJson, r) := by
  rw [SolutionResult.encodeSol_append]
  show parseValue
    ((f + x.function_signatures.length + 6 * x.test_cases.length + 8) + 1) _ = _
  have hshape : encStr (str "problem_statement") ++ ':' ::
      (encStr x.problem_statement ++ ',' :: (encStr (str "function_signatures") ++ ':' ::
        ('[' :: (encStrList x.function_signatures ++ ']' ::
          (',' :: (encStr (str "test_cases") ++ ':' ::
            ('[' :: (encTcList x.test_cases ++ ']' ::
              (',' :: (encStr (str "solution") ++ ':' ::
                (encStr x.solution ++ rbrace :: r))))))))))) =
      '"' :: (encStrBody (str "problem_statement") ++ '"' :: (':' ::
        (encStr x.problem_statement ++ ',' :: (encStr (str "function_signatures") ++ ':' ::
          ('[' :: (encStrList x.function_signatures ++ ']' ::
            (',' :: (encStr (str "test_cases") ++ ':' ::
              ('[' :: (encTcList x.test_cases ++ ']' ::
                (',' :: (encStr (str "solution") ++ ':' ::
                  (encStr x.solution ++ rbrace :: r))))))))))))) := by
    simp [encStr]
  rw [hshape]
  apply parseValue_obj_step _ _ _ _ _ (by decide) (by decide)
  rw [← hshape]
  apply parseMembers_cons
  · exact skipWs_encStr _ _
  · exact parseValue_encStr
      (f + x.function_signatures.length + 6 * x.test_cases.length + 6)
      x.problem_statement _
  · exact skipWs_encStr _ _
  apply parseMembers_cons
  · exact skipWs_cons_of_neg _ _ (by decide)
  · have harr := parseValue_encStrList (f + 6 * x.test_cases.length + 4)
      x.function_signatures
      (',' :: (encStr (str "test_cases") ++ ':' ::
        ('[' :: (encTcList x.test_cases ++ ']' ::
          (',' :: (encStr (str "solution") ++ ':' ::
            (encStr x.solution ++ rbrace :: r)))))))
    rw [show f + 6 * x.test_cases.length + 4 + x.function_signatures.length + 2
        = f + x.function_signatures.length + 6 * x.test_cases.length + 6 by ring] at harr
    exact harr
  · exact skipWs_encStr _ _
  apply parseMembers_cons
  · exact skipWs_cons_of_neg _ _ (by decide)
  · have harr := parseValue_encTcList (f + x.function_signatures.length + 3)
      x.test_cases
      (',' :: (encStr (str "solution") ++ ':' ::
        (encStr x.solution ++ rbrace :: r)))
    rw [show f + x.function_signatures.length + 3 + 6 * x.test_cases.length + 2
        = f + x.function_signatures.length + 6 * x.test_cases.length + 5 by ring] at harr
    exact harr
  · exact skipWs_encStr _ _
  exact parseMembers_last _ _ _ _ _ (skipWs_encStr _ _)
    (parseValue_encStr (f + x.function_signatures.length + 6 * x.test_cases.length + 3)
      x.solution _)

theorem encStr_length_ge (s : Text) : 2 ≤ (encStr s).length := by
  simp [encStr]

theorem encStrList_length_ge : ∀ l : List Text, l.length ≤ (encStrList l).length := by
  intro l
  induction l with
  | nil => simp [encStrList]
  | cons x l' ih =>
    cases l' with
    | nil =>
      have := encStr_length_ge x
      simp [encStrList]
      omega
    | cons y r =>
      have := encStr_length_ge x
      simp [encStrList] at ih ⊢
      omega

theorem encodeTc_length_ge (t : TestCase) : 3 ≤ (TestCase.encode t).length := by
  have := encStr_length_ge (str "operation")
  simp [TestCase.encode]
  omega

theorem encTcList_length_ge : ∀ l : List TestCase, 3 * l.length ≤ (encTcList l).length := by
  intro l
  induction l with
  | nil => simp [encTcList]
  | cons t l' ih =>
    cases l' with
    | nil =>
      have := encodeTc_length_ge t
      simp [encTcList]
      omega
    | cons y r =>
      have := encodeTc_length_ge t
      simp [encTcList] at ih ⊢
      omega

theorem encode_length_ge (x : SolutionResult) :
    x.function_signatures.length + 3 * x.test_cases.length + 7 ≤
      (SolutionResult.encode x).length := by
  have h1 := encStrList_length_ge x.function_signatures
  have h2 := encTcList_length_ge x.test_cases
  simp [SolutionResult.encode]
  omega

/-- The serializer/parser round trip: the model of `json.loads` recovers
the structured value from the compact serialization of any
`SolutionResult`. -/
theorem Json_parse_encode (x : SolutionResult) :
    Json.parse (SolutionResult.encode x) = some x.toJson := by
  unfold Json.parse
  obtain ⟨R, hR⟩ : ∃ R, SolutionResult.encode x = lbrace :: R := ⟨_, rfl⟩
  have h0 : skipWs (SolutionResult.encode x) = SolutionResult.encode x := by
    rw [hR]
    exact skipWs_cons_of_neg _ _ (by decide)
  rw [h0]
  have hb := encode_length_ge x
  obtain ⟨f, hf⟩ : ∃ f, 2 * (SolutionResult.encode x).length + 2
      = f + x.function_signatures.length + 6 * x.test_cases.length + 9 :=
    ⟨2 * (SolutionResult.encode x).length + 2 -
      (x.function_signatures.length + 6 * x.test_cases.length + 9), by omega⟩
  rw [hf]
  have hp := parseValue_encode f x []
  rw [List.append_nil] at hp
  rw [hp]
  simp [skipWs]

/-! ## The response decoders

Shallow embedding of the "try to parse JSON out of the raw model reply"
blocks of `leetcode_vision_solver.py` (lines 262-308) and
`gemini_leetcode_solver.py` (lines 225-284).  The `try`/`except`
structure is made explicit: the `except` handlers become the fallback
expressions of the corresponding branches. -/

/-- The synthesized fallback result `{"problem_statement": ps,
"function_signatures": [], "test_cases": [], "solution": sol}`. -/
def mkFallback (ps sol : Text) : Json :=
  Json.obj [(str "problem_statement", Json.str ps),
            (str "function_signatures", Json.arr []),
            (str "test_cases", Json.arr []),
            (str "solution", Json.str sol)]

/-- Fallback solution extraction shared by the `except` handlers
(`leetcode_vision_solver.py:296-301`, `gemini_leetcode_solver.py:255-260`
and `272-277`): prefer the contents of a python-labeled fenced block,
then of the first fenced block, else the raw text. -/
def extract_solution_fallback (t : Text) : Text :=
  if containsSub t (str "```python") then
    pyStrip ((splitOnSub (str "```") ((splitOnSub (str "```python") t).getD 1 [])).getD 0 [])
  else if containsSub t (str "```") then
    pyStrip ((splitOnSub (str "```") ((splitOnSub (str "```") t).getD 1 [])).getD 0 [])
  else t

/-- The labeled-block text both decoders feed to `json.loads` first:
`result_text.split("```json")[1].split("```")[0].strip()`. -/
def json_block_text (t : Text) : Text :=
  pyStrip ((splitOnSub (str "```") ((splitOnSub (str "```json") t).getD 1 [])).getD 0 [])

/-- The block scan of `gemini_leetcode_solver.py:233-239`: try every
fenced chunk whose stripped content starts with a left curly bracket and
ends with a right curly bracket; on parse failure continue with the
remaining chunks. -/
def gemini_scan_blocks : List Text → Option Json
  | [] => none
  | b :: rest =>
    if (pyStrip b).head? = some lbrace ∧ (pyStrip b).getLast? = some rbrace then
      match Json.parse (pyStrip b) with
      | some j => some j
      | none => gemini_scan_blocks rest
    else gemini_scan_blocks rest

/-- The decode portion of
`GeminiLeetCodeSolver.process_image_with_gemini`
(`gemini_leetcode_solver.py:225-284`), as a function of the raw reply
text.  A `ValueError` escaping the `elif` branch reaches the outer
handler ("Could not extract automatically."); failures inside the inner
`try` of the `else` branch reach its bare `except`
("Extracted from image"). -/
def gemini_decode (t : Text) : Json :=
  if containsSub t (str "```json") then
    match Json.parse (json_block_text t) with
    | some j => j
    | none =>
      mkFallback (str "Could not extract automatically.") (extract_solution_fallback t)
  else if containsSub t (str "```") && containsSub t [lbrace] then
    match gemini_scan_blocks (splitOnSub (str "```") t) with
    | some j => j
    | none =>
      mkFallback (str "Could not extract automatically.") (extract_solution_fallback t)
  else
    let start_idx := pyFindChar t lbrace
    let end_idx := pyRFindChar t rbrace + 1
    if start_idx ≠ -1 ∧ end_idx ≠ -1 then
      match Json.parse (pySlice t start_idx end_idx) with
      | some j => j
      | none => mkFallback (str "Extracted from image") (extract_solution_fallback t)
    else mkFallback (str "Extracted from image") (extract_solution_fallback t)

/-- The decode portion of
`ClaudeLeetCodeSolver.process_image_with_claude`
(`leetcode_vision_solver.py:261-308`), as a function of the raw reply
text.  A `json.JSONDecodeError` from the labeled-block branch reaches
the outer handler (line 292); the bare `except` of the `elif` branch
(line 272) synthesizes a result from the first fenced chunk; the `else`
branch falls back to the raw text. -/
def claude_decode (t : Text) : Json :=
  if containsSub t (str "```json") then
    match Json.parse (json_block_text t) with
    | some j => j
    | none =>
      mkFallback (str "Could not extract automatically.") (extract_solution_fallback t)
  else if containsSub t (str "```") then
    let json_text := pyStrip ((splitOnSub (str "```") t).getD 1 [])
    match Json.parse json_text with
    | some j => j
    | none => mkFallback (str "Extracted from image") json_text
  else
    match Json.parse t with
    | some j => j
    | none => mkFallback (str "Could not extract automatically.") t

/-- Projection used to state counterexamples: the string stored under a
key of a structured-data object. -/
def Json.getStrField (j : Json) (k : Text) : Option Text :=
  match j with
  | Json.obj ms =>
    match ms.lookup k with
    | some (Json.str s) => some s
    | _ => none
  | _ => none

/-! ### Decoding a well-formed labeled reply -/

theorem json_block_text_of_wrapped (ser : Text) (hser : btick ∉ ser)
    (hstrip : pyStrip ser = ser) :
    json_block_text (str "```json\n" ++ (ser ++ str "\n```")) = ser := by
  have hP : btick ∉ '\n' :: (ser ++ ['\n']) := by
    intro h
    rcases List.mem_cons.mp h with h | h
    · exact absurd h (by decide)
    · rcases List.mem_append.mp h with h | h
      · exact hser h
      · exact absurd h (by decide)
  have hsep7 : str "```json" = btick :: str "``json" := by decide
  have hsep3 : str "```" = btick :: str "``" := by decide
  have h1 : str "```json\n" ++ (ser ++ str "\n```")
      = (btick :: str "``json") ++ (('\n' :: (ser ++ ['\n'])) ++ (btick :: str "``") ++ []) := by
    have ha : str "```json\n" = (btick :: str "``json") ++ ['\n'] := by decide
    have hb : str "\n```" = '\n' :: (btick :: str "``") := by decide
    rw [ha, hb]
    simp [List.append_assoc]
  unfold json_block_text
  rw [h1, hsep7, hsep3, splitOnSub_append_sep]
  have h2 : splitOnSub (btick :: str "``json")
      ((('\n' :: (ser ++ ['\n'])) ++ (btick :: str "``") ++ []))
      = [('\n' :: (ser ++ ['\n'])) ++ (btick :: str "``") ++ []] := by
    apply splitOnSub_eq_single
    rw [List.append_nil, containsSub_append_of_not_mem _ _ _ _ hP]
    decide
  rw [h2]
  simp only [List.getD_cons_succ, List.getD_cons_zero]
  rw [splitOnSub_mid btick (str "``") ('\n' :: (ser ++ ['\n'])) [] hP]
  have h5 : splitOnSub (btick :: str "``") [] = [[]] := rfl
  rw [h5]
  simp only [List.getD_cons_zero]
  rw [pyStrip_cons_ws _ (by decide), pyStrip_append_ws _ (by decide), hstrip]

theorem hexDigitChar_ne_backtick (n : Nat) (h : n < 16) : hexDigitChar n ≠ btick := by
  interval_cases n <;> decide

theorem backtick_not_mem_escChar (c : Char) (hc : c ≠ btick) : btick ∉ escChar c := by
  by_cases h1 : c = '"'
  · subst h1; decide
  by_cases h2 : c = '\\'
  · subst h2; decide
  by_cases h3 : c = Char.ofNat 8
  · subst h3; decide
  by_cases h4 : c = '\t'
  · subst h4; decide
  by_cases h5 : c = '\n'
  · subst h5; decide
  by_cases h6 : c = Char.ofNat 12
  · subst h6; decide
  by_cases h7 : c = '\r'
  · subst h7; decide
  by_cases h8 : c.toNat < 32
  · have hesc : escChar c =
        ['\\', 'u', '0', '0', hexDigitChar (c.toNat / 16), hexDigitChar (c.toNat % 16)] := by
      simp [escChar, h1, h2, h3, h4, h5, h6, h7, h8]
    rw [hesc]
    intro h
    have hhi := hexDigitChar_ne_backtick (c.toNat / 16) (by omega)
    have hlo := hexDigitChar_ne_backtick (c.toNat % 16) (by omega)
    simp only [List.mem_cons, List.not_mem_nil, or_false] at h
    rcases h with h | h | h | h | h | h
    · exact absurd h (by decide)
    · exact absurd h (by decide)
    · exact absurd h (by decide)
    · exact absurd h (by decide)
    · exact hhi h.symm
    · exact hlo h.symm
  · have hesc : escChar c = [c] := by
      simp [escChar, h1, h2, h3, h4, h5, h6, h7, h8]
    rw [hesc]
    intro h
    simp at h
    exact hc h.symm

theorem backtick_not_mem_encStrBody (s : Text) (hs : btick ∉ s) :
    btick ∉ encStrBody s := by
  induction s with
  | nil => simp [encStrBody]
  | cons c s' ih =>
    intro h
    have hshape : encStrBody (c :: s') = escChar c ++ encStrBody s' := rfl
    rw [hshape] at h
    rcases List.mem_append.mp h with h | h
    · exact backtick_not_mem_escChar c (fun hc => hs (by simp [hc])) h
    · exact ih (fun hc => hs (by simp [hc])) h

theorem backtick_not_mem_encStr (s : Text) (hs : btick ∉ s) : btick ∉ encStr s := by
  intro h
  rcases List.mem_cons.mp h with h | h
  · exact absurd h (by decide)
  rcases List.mem_append.mp h with h | h
  · exact backtick_not_mem_encStrBody s hs h
  · exact absurd h (by decide)

theorem backtick_not_mem_encStrList (l : List Text) (hl : ∀ s ∈ l, btick ∉ s) :
    btick ∉ encStrList l := by
  induction l with
  | nil => simp [encStrList]
  | cons x l' ih =>
    intro h
    cases l' with
    | nil => exact backtick_not_mem_encStr x (hl x (by simp)) h
    | cons y r =>
      have hshape : encStrList (x :: y :: r) = encStr x ++ ',' :: encStrList (y :: r) := rfl
      rw [hshape] at h
      rcases List.mem_append.mp h with h | h
      · exact backtick_not_mem_encStr x (hl x (by simp)) h
      · rcases List.mem_cons.mp h with h | h
        · exact absurd h (by decide)
        · exact ih (fun s hs => hl s (by simp [hs])) h

theorem backtick_not_mem_encodeTc (t : TestCase)
    (h1 : btick ∉ t.operation) (h2 : btick ∉ t.input) (h3 : btick ∉ t.expected_output) :
    btick ∉ TestCase.encode t := by
  intro h
  have hko : btick ∉ encStr (str "operation") := by decide
  have hki : btick ∉ encStr (str "input") := by decide
  have hke : btick ∉ encStr (str "expected_output") := by decide
  have ho := backtick_not_mem_encStr t.operation h1
  have hi := backtick_not_mem_encStr t.input h2
  have he := backtick_not_mem_encStr t.expected_output h3
  rw [TestCase.encode] at h
  simp only [List.mem_cons, List.mem_append] at h
  rcases h with h | h
  · exact absurd h (by decide)
  rcases h with h | h
  · exact hko h
  rcases h with h | h
  · exact absurd h (by decide)
  rcases h with h | h
  · exact ho h
  rcases h with h | h
  · exact absurd h (by decide)
  rcases h with h | h
  · exact hki h
  rcases h with h | h
  · exact absurd h (by decide)
  rcases h with h | h
  · exact hi h
  rcases h with h | h
  · exact absurd h (by decide)
  rcases h with h | h
  · exact hke h
  rcases h with h | h
  · exact absurd h (by decide)
  rcases h with h | h
  · exact he h
  rcases h with h | h
  · exact absurd h (by decide)
  · simp at h

theorem backtick_not_mem_encTcList (l : List TestCase)
    (hl : ∀ t ∈ l, btick ∉ t.operation ∧ btick ∉ t.input ∧ btick ∉ t.expected_output) :
    btick ∉ encTcList l := by
  induction l with
  | nil => simp [encTcList]
  | cons x l' ih =>
    intro h
    have hx := hl x (by simp)
    cases l' with
    | nil => exact backtick_not_mem_encodeTc x hx.1 hx.2.1 hx.2.2 h
    | cons y r =>
      have hshape : encTcList (x :: y :: r) = TestCase.encode x ++ ',' :: encTcList (y :: r) := rfl
      rw [hshape] at h
      rcases List.mem_append.mp h with h | h
      · exact backtick_not_mem_encodeTc x hx.1 hx.2.1 hx.2.2 h
      · rcases List.mem_cons.mp h with h | h
        · exact absurd h (by decide)
        · exact ih (fun s hs => hl s (by simp [hs])) h

theorem backtick_not_mem_encode (x : SolutionResult)
    (hps : btick ∉ x.problem_statement)
    (hfs : ∀ s ∈ x.function_signatures, btick ∉ s)
    (htc : ∀ t ∈ x.test_cases,
      btick ∉ t.operation ∧ btick ∉ t.input ∧ btick ∉ t.expected_output)
    (hsol : btick ∉ x.solution) :
    btick ∉ SolutionResult.encode x := by
  intro h
  have hk1 : btick ∉ encStr (str "problem_statement") := by decide
  have hk2 : btick ∉ encStr (str "function_signatures") := by decide
  have hk3 : btick ∉ encStr (str "test_cases") := by decide
  have hk4 : btick ∉ encStr (str "solution") := by decide
  have h1 := backtick_not_mem_encStr x.problem_statement hps
  have h2 := backtick_not_mem_encStrList x.function_signatures hfs
  have h3 := backtick_not_mem_encTcList x.test_cases htc
  have h4 := backtick_not_mem_encStr x.solution hsol
  rw [SolutionResult.encode] at h
  simp only [List.mem_cons, List.mem_append] at h
  rcases h with h | h
  · exact absurd h (by decide)
  rcases h with h | h
  · exact hk1 h
  rcases h with h | h
  · exact absurd h (by decide)
  rcases h with h | h
  · exact h1 h
  rcases h with h | h
  · exact absurd h (by decide)
  rcases h with h | h
  · exact hk2 h
  rcases h with h | h
  · exact absurd h (by decide)
  rcases h with h | h
  · exact absurd h (by decide)
  rcases h with h | h
  · exact h2 h
  rcases h with h | h
  · exact absurd h (by decide)
  rcases h with h | h
  · exact absurd h (by decide)
  rcases h with h | h
  · exact hk3 h
  rcases h with h | h
  · exact absurd h (by decide)
  rcases h with h | h
  · exact absurd h (by decide)
  rcases h with h | h
  · exact h3 h
  rcases h with h | h
  · exact absurd h (by decide)
  rcases h with h | h
  · exact absurd h (by decide)
  rcases h with h | h
  · exact hk4 h
  rcases h with h | h
  · exact absurd h (by decide)
  rcases h with h | h
  · exact h4 h
  rcases h with h | h
  · exact absurd h (by decide)
  · simp at h

theorem encode_strip_eq_self (x : SolutionResult) :
    pyStrip (SolutionResult.encode x) = SolutionResult.encode x := by
  have hshape : SolutionResult.encode x =
      lbrace :: ((encStr (str "problem_statement") ++ ':' ::
        (encStr x.problem_statement ++ ',' :: (encStr (str "function_signatures") ++ ':' ::
          ('[' :: (encStrList x.function_signatures ++ ']' ::
            (',' :: (encStr (str "test_cases") ++ ':' ::
              ('[' :: (encTcList x.test_cases ++ ']' ::
                (',' :: (encStr (str "solution") ++ ':' ::
                  encStr x.solution))))))))))) ++ [rbrace]) := by
    simp [SolutionResult.encode, List.append_assoc]
  rw [hshape]
  exact pyStrip_eq_self _ _ _ (by decide) (by decide)

/-- A raw reply consisting of one fenced block labeled json whose
content is the JSON serialization of `x` (the shape in the
specification's round-trip example). -/
def encodeReply (x : SolutionResult) : Text :=
  str "```json\n" ++ (SolutionResult.encode x ++ str "\n```")

/-- C4: for every well-formed structured reply — a fenced block labeled
json containing the JSON serialization of a `SolutionResult` `x` whose
fields are free of backticks (so that the serialization really is the
content of the fenced block) — both decoders return exactly the
structured value of `x`: `decode (encode x) = x`. -/
theorem C4_decode_roundtrip (x : SolutionResult)
    (hps : btick ∉ x.problem_statement)
    (hfs : ∀ s ∈ x.function_signatures, btick ∉ s)
    (htc : ∀ t ∈ x.test_cases,
      btick ∉ t.operation ∧ btick ∉ t.input ∧ btick ∉ t.expected_output)
    (hsol : btick ∉ x.solution) :
    gemini_decode (encodeReply x) = SolutionResult.toJson x ∧
      claude_decode (encodeReply x) = SolutionResult.toJson x := by
  have hser := backtick_not_mem_encode x hps hfs htc hsol
  have hjbt : json_block_text (encodeReply x) = SolutionResult.encode x :=
    json_block_text_of_wrapped _ hser (encode_strip_eq_self x)
  have hcontains : containsSub (encodeReply x) (str "```json") = true := by
    apply containsSub_of_isPrefixOf
    apply (isPrefixOf_exists_append _ _).mpr
    refine ⟨'\n' :: (SolutionResult.encode x ++ str "\n```"), ?_⟩
    rw [encodeReply, show str "```json\n" = str "```json" ++ ['\n'] by decide]
    simp [List.append_assoc]
  constructor
  · simp [gemini_decode, hcontains, hjbt, Json_parse_encode]
  · simp [claude_decode, hcontains, hjbt, Json_parse_encode]

/-- Witness for C4 at the specification's concrete example
`{"problem_statement":"x","function_signatures":[],"test_cases":[],"solution":"pass"}`. -/
theorem C4_decode_roundtrip_witness :
    gemini_decode (encodeReply ⟨str "x", [], [], str "pass"⟩)
        = SolutionResult.toJson ⟨str "x", [], [], str "pass"⟩ ∧
      claude_decode (encodeReply ⟨str "x", [], [], str "pass"⟩)
        = SolutionResult.toJson ⟨str "x", [], [], str "pass"⟩ :=
  C4_decode_roundtrip ⟨str "x", [], [], str "pass"⟩
    (by decide) (by simp) (by simp) (by decide)

/-! ### C1: the fallback precedence chain -/

/-- A reply whose labeled json block is malformed while a later fenced
block holds well-formed structured data: per the claimed chain, strategy
2 should recover the second block. -/
def C1reply : Text :=
  str "```json\n\x7bbad\n```\n```\n\x7b\"problem_statement\": \"p\", \"function_signatures\": [], \"test_cases\": [], \"solution\": \"s\"\x7d\n```"

/-- C1 (counterexample): on `C1reply` the second fenced block parses as
structured data (so the claimed fall-through from strategy 1 to strategy
2 would return it, with problem statement `"p"`), but both decoders
instead return the synthesized raw-text fallback whose problem statement
is the placeholder `"Could not extract automatically."`. -/
theorem C1_counterexample :
    (∃ j, Json.parse (pyStrip ((splitOnSub (str "```") C1reply).getD 3 [])) = some j ∧
      Json.getStrField j (str "problem_statement") = some (str "p")) ∧
    Json.getStrField (gemini_decode C1reply) (str "problem_statement")
      = some (str "Could not extract automatically.") ∧
    Json.getStrField (claude_decode C1reply) (str "problem_statement")
      = some (str "Could not extract automatically.") := by
  refine ⟨⟨Json.obj [(str "problem_statement", Json.str (str "p")),
    (str "function_signatures", Json.arr []),
    (str "test_cases", Json.arr []),
    (str "solution", Json.str (str "s"))], rfl, rfl⟩, rfl, rfl⟩

/-- C1 (amended): both decoders resolve a reply containing a block
labeled json as follows — if the labeled block's text parses as
structured data the parsed value is returned (strategy 1); if it does
not parse, the decoder does not continue with strategies 2-3 but falls
directly to the synthesized raw-text fallback with placeholder
`"Could not extract automatically."`.  No branch raises. -/
theorem C1_amended_labeled_precedence (t : Text)
    (h : containsSub t (str "```json") = true) :
    (∀ j, Json.parse (json_block_text t) = some j →
      gemini_decode t = j ∧ claude_decode t = j) ∧
    (Json.parse (json_block_text t) = none →
      gemini_decode t = mkFallback (str "Could not extract automatically.")
          (extract_solution_fallback t) ∧
        claude_decode t = mkFallback (str "Could not extract automatically.")
          (extract_solution_fallback t)) := by
  constructor
  · intro j hj
    constructor
    · simp [gemini_decode, h, hj]
    · simp [claude_decode, h, hj]
  · intro hj
    constructor
    · simp [gemini_decode, h, hj]
    · simp [claude_decode, h, hj]

/-- Witness for the amended C1 at the concrete reply `C1reply` (whose
labeled block is malformed). -/
theorem C1_amended_labeled_precedence_witness :
    gemini_decode C1reply = mkFallback (str "Could not extract automatically.")
        (extract_solution_fallback C1reply) ∧
      claude_decode C1reply = mkFallback (str "Could not extract automatically.")
        (extract_solution_fallback C1reply) :=
  (C1_amended_labeled_precedence C1reply (by decide)).2 rfl

/-! ### C5: replies holding only a fenced non-JSON block -/

theorem containsSub_eq_false_of_lt_length (s pat : Text) (h : s.length < pat.length) :
    containsSub s pat = false := by
  cases hc : containsSub s pat
  · rfl
  · exfalso
    rcases (containsSub_iff s pat).mp hc with ⟨p, q, rfl⟩
    simp at h
    omega

/-- No needle of the form `` ` ``-then-three-more-characters occurs in a
reply made of a single unlabeled fenced block with backtick-free
content, provided the characters after the leading backtick do not spell
the fence boundary. -/
theorem not_contains_fence_wrap (body : Text) (hbt : btick ∉ body)
    (e0 e1 e2 : Char) (ext : Text)
    (h0 : e0 ≠ '\n') (h1 : e1 ≠ '\n') (h2 : e2 ≠ '\n') :
    containsSub (str "```\n" ++ (body ++ str "\n```"))
      (btick :: e0 :: e1 :: e2 :: ext) = false := by
  have hshape : str "```\n" ++ (body ++ str "\n```")
      = btick :: btick :: btick :: '\n' :: (body ++ ('\n' :: str "```")) := by
    rw [show str "\n```" = '\n' :: str "```" by decide]
    rfl
  rw [hshape]
  rw [containsSub_cons, containsSub_cons, containsSub_cons, containsSub_cons]
  have hp0 : (btick :: e0 :: e1 :: e2 :: ext).isPrefixOf
      (btick :: btick :: btick :: '\n' :: (body ++ ('\n' :: str "```"))) = false := by
    simp [List.isPrefixOf, h2]
  have hp1 : (btick :: e0 :: e1 :: e2 :: ext).isPrefixOf
      (btick :: btick :: '\n' :: (body ++ ('\n' :: str "```"))) = false := by
    simp [List.isPrefixOf, h1]
  have hp2 : (btick :: e0 :: e1 :: e2 :: ext).isPrefixOf
      (btick :: '\n' :: (body ++ ('\n' :: str "```"))) = false := by
    simp [List.isPrefixOf, h0]
  have hbn : btick ≠ '\n' := by decide
  have hp3 : (btick :: e0 :: e1 :: e2 :: ext).isPrefixOf
      ('\n' :: (body ++ ('\n' :: str "```"))) = false := by
    simp [List.isPrefixOf, hbn]
  have hrest : containsSub (body ++ ('\n' :: str "```"))
      (btick :: e0 :: e1 :: e2 :: ext) = false := by
    rw [containsSub_append_of_not_mem _ _ _ _ hbt, containsSub_cons]
    have hp4 : (btick :: e0 :: e1 :: e2 :: ext).isPrefixOf ('\n' :: str "```") = false := by
      simp [List.isPrefixOf, hbn]
    rw [hp4]
    have hlen : containsSub (str "```") (btick :: e0 :: e1 :: e2 :: ext) = false := by
      apply containsSub_eq_false_of_lt_length
      simp [str]
    rw [hlen]
    rfl
  rw [hp0, hp1, hp2, hp3, hrest]
  rfl

/-- Splitting the single-block reply on the fence marker yields exactly
the empty chunk, the inner chunk and the empty chunk. -/
theorem split_fence_wrap (body : Text) (hbt : btick ∉ body) :
    splitOnSub (str "```") (str "```\n" ++ (body ++ str "\n```"))
      = [[], '\n' :: (body ++ ['\n']), []] := by
  have hP : btick ∉ '\n' :: (body ++ ['\n']) := by
    intro h
    rcases List.mem_cons.mp h with h | h
    · exact absurd h (by decide)
    · rcases List.mem_append.mp h with h | h
      · exact hbt h
      · exact absurd h (by decide)
  have hshape : str "```\n" ++ (body ++ str "\n```")
      = (btick :: str "``") ++ (('\n' :: (body ++ ['\n'])) ++ (btick :: str "``") ++ []) := by
    rw [show str "\n```" = ('\n' :: ([] : Text)) ++ (btick :: str "``") by decide]
    rw [show str "```\n" = (btick :: str "``") ++ ['\n'] by decide]
    simp [List.append_assoc]
  rw [hshape, show str "```" = btick :: str "``" by decide, splitOnSub_append_sep,
    splitOnSub_mid btick (str "``") ('\n' :: (body ++ ['\n'])) [] hP]
  rfl

/-- C5 (amended): on a reply consisting of exactly one unlabeled fenced
block whose content has no backtick and no left curly bracket and whose
stripped text is not parseable structured data, both decoders return the
synthesized result whose solution is the trimmed block content and whose
problem statement is the placeholder `"Extracted from image"`. -/
theorem C5_amended_fenced_fallback (body : Text)
    (hbt : btick ∉ body) (hbr : lbrace ∉ body)
    (hparse : Json.parse (pyStrip body) = none) :
    gemini_decode (str "```\n" ++ (body ++ str "\n```"))
        = mkFallback (str "Extracted from image") (pyStrip body) ∧
      claude_decode (str "```\n" ++ (body ++ str "\n```"))
        = mkFallback (str "Extracted from image") (pyStrip body) := by
  have hnojson : containsSub (str "```\n" ++ (body ++ str "\n```")) (str "```json")
      = false := by
    rw [show str "```json" = btick :: btick :: btick :: 'j' :: str "son" by decide]
    exact not_contains_fence_wrap body hbt _ _ _ _
      (by decide) (by decide) (by decide)
  have hnopython : containsSub (str "```\n" ++ (body ++ str "\n```")) (str "```python")
      = false := by
    rw [show str "```python" = btick :: btick :: btick :: 'p' :: str "ython" by decide]
    exact not_contains_fence_wrap body hbt _ _ _ _
      (by decide) (by decide) (by decide)
  have hfence : containsSub (str "```\n" ++ (body ++ str "\n```")) (str "```")
      = true := by
    apply containsSub_of_isPrefixOf
    apply (isPrefixOf_exists_append _ _).mpr
    refine ⟨'\n' :: (body ++ str "\n```"), ?_⟩
    rw [show str "```\n" = str "```" ++ ['\n'] by decide]
    simp [List.append_assoc]
  have hsplit := split_fence_wrap body hbt
  have hM : splitOnSub (str "```") ('\n' :: (body ++ ['\n']))
      = ['\n' :: (body ++ ['\n'])] := by
    apply splitOnSub_eq_single
    rw [show str "```" = btick :: str "``" by decide]
    rw [show ('\n' : Char) :: (body ++ ['\n']) = ('\n' :: (body ++ ['\n'])) ++ [] by simp,
      containsSub_append_of_not_mem _ _ _ _ (by
        intro h
        rcases List.mem_cons.mp h with h | h
        · exact absurd h (by decide)
        · rcases List.mem_append.mp h with h | h
          · exact hbt h
          · exact absurd h (by decide))]
    decide
  have hstripM : pyStrip ('\n' :: (body ++ ['\n'])) = pyStrip body := by
    rw [pyStrip_cons_ws _ (by decide), pyStrip_append_ws _ (by decide)]
  have hnobrace : containsSub (str "```\n" ++ (body ++ str "\n```")) [lbrace]
      = false := by
    cases hc : containsSub (str "```\n" ++ (body ++ str "\n```")) [lbrace]
    · rfl
    · exfalso
      have hmem := (containsSub_singleton _ _).mp hc
      rcases List.mem_append.mp hmem with h | h
      · exact absurd h (by decide)
      · rcases List.mem_append.mp h with h | h
        · exact hbr h
        · exact absurd h (by decide)
  have hesf : extract_solution_fallback (str "```\n" ++ (body ++ str "\n```"))
      = pyStrip body := by
    unfold extract_solution_fallback
    rw [hnopython, hfence]
    simp only [Bool.false_eq_true, if_false, if_true]
    rw [hsplit]
    simp only [List.getD_cons_succ, List.getD_cons_zero]
    rw [hM]
    simp only [List.getD_cons_zero]
    exact hstripM
  constructor
  · unfold gemini_decode
    rw [hnojson, hfence, hnobrace]
    have hfind : pyFindChar (str "```\n" ++ (body ++ str "\n```")) lbrace = -1 := by
      unfold pyFindChar
      have hnone : findSub [lbrace] (str "```\n" ++ (body ++ str "\n```")) = none := by
        have hx := hnobrace
        unfold containsSub at hx
        exact Option.not_isSome_iff_eq_none.mp (by simp [hx])
      rw [hnone]
    simp only [Bool.false_eq_true, if_false, Bool.and_false]
    rw [hfind]
    simp [hesf]
  · unfold claude_decode
    rw [hnojson, hfence]
    simp only [Bool.false_eq_true, if_false, if_true]
    rw [hsplit]
    simp only [List.getD_cons_succ, List.getD_cons_zero]
    rw [hstripM, hparse]

/-- Witness for the amended C5 at the concrete reply holding one fenced
block of plain code. -/
theorem C5_amended_fenced_fallback_witness :
    gemini_decode (str "```\n" ++ (str "def f(x): pass" ++ str "\n```"))
        = mkFallback (str "Extracted from image") (pyStrip (str "def f(x): pass")) ∧
      claude_decode (str "```\n" ++ (str "def f(x): pass" ++ str "\n```"))
        = mkFallback (str "Extracted from image") (pyStrip (str "def f(x): pass")) :=
  C5_amended_fenced_fallback (str "def f(x): pass") (by decide) (by decide) rfl

/-- C5 (counterexample): there is no single fixed fallback placeholder:
a brace-free fenced block yields problem statement
`"Extracted from image"`, while a fenced block containing braces makes
the Gemini decoder's block scan fail and escalate to the outer handler,
yielding `"Could not extract automatically."`. -/
theorem C5_counterexample :
    Json.getStrField (gemini_decode (str "```\ndef f(x): pass\n```"))
        (str "problem_statement") = some (str "Extracted from image") ∧
    Json.getStrField (gemini_decode (str "```\nint f() \x7b return 0; \x7d\n```"))
        (str "problem_statement") = some (str "Could not extract automatically.") ∧
    str "Extracted from image" ≠ str "Could not extract automatically." :=
  ⟨rfl, rfl, by decide⟩

/-! ## The OCR pipeline: images, region detection, frame processing

`ImageProcessor.detect_regions` slices at `int(width * 0.3)` and
`int(width * 0.7)`, where `0.3` and `0.7` are IEEE-754 doubles and the
products are computed in double precision.  The boundary computation is
modelled exactly: `0.3 = m3 / 2^54` and `0.7 = m7 / 2^52` with integer
significands, the product `W * 0.3` is the dyadic `W * m3 / 2^54`
rounded to the nearest double (ties to even), and `int()` truncates.
This model is exact for `1 ≤ W ≤ 2^53`, where the conversion of `W` to
a double is itself exact. -/

/-- A two-dimensional pixel buffer of height `h` and width `w`. -/
structure Image where
  h : Nat
  w : Nat
  pix : Nat → Nat → Nat

/-- Fuelled computation of the binary logarithm (position of the highest
set bit); the fuel only needs to dominate `n` itself. -/
def natLog2 : Nat → Nat → Nat
  | 0, _ => 0
  | fuel + 1, n => if n ≤ 1 then 0 else natLog2 fuel (n / 2) + 1

/-- Binary logarithm, executable by kernel reduction. -/
def log2F (n : Nat) : Nat := natLog2 n n

/-- Round-half-to-even of `N / 2^s` (the IEEE-754 tie-breaking rule). -/
def rhe (N s : Nat) : Nat :=
  let p := 2 ^ s
  let q := N / p
  let r := N % p
  if 2 * r < p then q
  else if p < 2 * r then q + 1
  else if q % 2 = 0 then q else q + 1

/-- The integer significand of the double `0.3` (`0.3 = m3 / 2^54`). -/
def m3 : Nat := 5404319552844595

/-- The integer significand of the double `0.7` (`0.7 = m7 / 2^52`). -/
def m7 : Nat := 3152519739159347

/-- `int(W * 0.3)` as computed by Python for `W ≤ 2^53`: the dyadic
`W * m3 / 2^54` is rounded to the nearest double (its significand grid
starts `log2F N - 52` bits above the last place), then truncated. -/
def int_mul_03 (W : Nat) : Nat :=
  (rhe (W * m3) (log2F (W * m3) - 52) * 2 ^ (log2F (W * m3) - 52)) / 2 ^ 54

/-- `int(W * 0.7)` as computed by Python for `W ≤ 2^53`. -/
def int_mul_07 (W : Nat) : Nat :=
  (rhe (W * m7) (log2F (W * m7) - 52) * 2 ^ (log2F (W * m7) - 52)) / 2 ^ 52

/-- The numpy slice `frame[r0:r1, c0:c1]` (bounds clamp to the array). -/
def npSlice (img : Image) (r0 r1 c0 c1 : Nat) : Image :=
  { h := min r1 img.h - min r0 img.h
    w := min c1 img.w - min c0 img.w
    pix := fun i j => img.pix (i + r0) (j + c0) }

/-- `ImageProcessor.detect_regions` (`src/src/image_processor.py:23-45`):
left strip `[0, int(0.3 w))`, middle strip `[int(0.3 w), int(0.7 w))`,
right strip `[int(0.7 w), w)`, all of full height. -/
def detect_regions (frame : Image) : Image × Image × Image :=
  let height := frame.h
  let width := frame.w
  let problem_region := npSlice frame 0 height 0 (int_mul_03 width)
  let code_editor_region := npSlice frame 0 height (int_mul_03 width) (int_mul_07 width)
  let test_cases_region := npSlice frame 0 height (int_mul_07 width) width
  (problem_region, code_editor_region, test_cases_region)

theorem natLog2_bounds :
    ∀ fuel n, 1 ≤ n → n ≤ fuel →
      2 ^ natLog2 fuel n ≤ n ∧ n < 2 ^ (natLog2 fuel n + 1) := by
  intro fuel
  induction fuel with
  | zero => intro n h1 h2; omega
  | succ f ih =>
    intro n h1 h2
    by_cases hn : n ≤ 1
    · have : n = 1 := by omega
      subst this
      simp [natLog2]
    · have hrec := ih (n / 2) (by omega) (by omega)
      have hunfold : natLog2 (f + 1) n = natLog2 f (n / 2) + 1 := by
        simp [natLog2, hn]
      rw [hunfold]
      constructor
      · have : 2 ^ (natLog2 f (n / 2) + 1) = 2 * 2 ^ natLog2 f (n / 2) := by ring
        rw [this]
        omega
      · have : 2 ^ (natLog2 f (n / 2) + 1 + 1) = 2 * 2 ^ (natLog2 f (n / 2) + 1) := by
          ring
        rw [this]
        omega

theorem log2F_bounds (n : Nat) (h : 1 ≤ n) :
    2 ^ log2F n ≤ n ∧ n < 2 ^ (log2F n + 1) :=
  natLog2_bounds n n h (Nat.le_refl n)

theorem rhe_zero (N : Nat) : rhe N 0 = N := by
  unfold rhe
  simp [Nat.mod_one, Nat.div_one]

theorem rhe_bounds (N s : Nat) :
    2 * N ≤ 2 * (rhe N s * 2 ^ s) + 2 ^ s ∧
      2 * (rhe N s * 2 ^ s) ≤ 2 * N + 2 ^ s := by
  have hp : 0 < 2 ^ s := Nat.pos_pow_of_pos s (by omega)
  have hdm : N / 2 ^ s * 2 ^ s + N % 2 ^ s = N := Nat.div_add_mod' N (2 ^ s)
  have hr : N % 2 ^ s < 2 ^ s := Nat.mod_lt N hp
  have hd : (N / 2 ^ s + 1) * 2 ^ s = N / 2 ^ s * 2 ^ s + 2 ^ s := by ring
  unfold rhe
  by_cases h1 : 2 * (N % 2 ^ s) < 2 ^ s
  · simp only [h1, if_true]
    omega
  · by_cases h2 : 2 ^ s < 2 * (N % 2 ^ s)
    · simp only [h1, h2, if_true, if_false]
      rw [hd]
      omega
    · by_cases h3 : N / 2 ^ s % 2 = 0
      · simp only [h1, h2, h3, if_true, if_false]
        omega
      · simp only [h1, h2, h3, if_true, if_false]
        rw [hd]
        omega

/-- Two-sided accuracy of the rounded significand: the represented value
`rhe N s * 2^s` is within a relative error of `2^-53` of `N`
(multiplied out to stay in natural numbers). -/
theorem rnd_accuracy (N : Nat) (hN : 1 ≤ N) :
    rhe N (log2F N - 52) * 2 ^ (log2F N - 52) * 2 ^ 53 ≤ N * 2 ^ 53 + N ∧
      N * 2 ^ 53 ≤ rhe N (log2F N - 52) * 2 ^ (log2F N - 52) * 2 ^ 53 + N := by
  have hlog := log2F_bounds N hN
  by_cases hs : log2F N ≤ 52
  · have hzero : log2F N - 52 = 0 := by omega
    rw [hzero, rhe_zero]
    simp
  · have hs52 : log2F N - 52 + 52 = log2F N := by omega
    have hb := rhe_bounds N (log2F N - 52)
    have hpow : 2 ^ (log2F N - 52) * 2 ^ 52 = 2 ^ log2F N := by
      rw [← pow_add, hs52]
    have hle : 2 ^ (log2F N - 52) * 2 ^ 52 ≤ N := by
      rw [hpow]; exact hlog.1
    constructor
    · nlinarith [hb.2]
    · nlinarith [hb.1]

theorem int_mul_07_lt (W : Nat) (hW : 1 ≤ W) : int_mul_07 W < W := by
  have hN7 : 1 ≤ W * m7 := by
    have : 1 ≤ m7 := by norm_num [m7]
    exact Nat.one_le_iff_ne_zero.mpr (by positivity)
  have hacc := (rnd_accuracy (W * m7) hN7).1
  unfold int_mul_07
  rw [Nat.div_lt_iff_lt_mul (by positivity)]
  have hconc : m7 * (2 ^ 53 + 1) < 2 ^ 52 * 2 ^ 53 := by norm_num [m7]
  have hchain : rhe (W * m7) (log2F (W * m7) - 52) * 2 ^ (log2F (W * m7) - 52) * 2 ^ 53
      < (W * 2 ^ 52) * 2 ^ 53 := by
    calc rhe (W * m7) (log2F (W * m7) - 52) * 2 ^ (log2F (W * m7) - 52) * 2 ^ 53
        ≤ W * m7 * 2 ^ 53 + W * m7 := hacc
      _ = W * (m7 * (2 ^ 53 + 1)) := by ring
      _ < W * (2 ^ 52 * 2 ^ 53) := by
          exact mul_lt_mul_of_pos_left hconc (by omega)
      _ = (W * 2 ^ 52) * 2 ^ 53 := by ring
  exact Nat.lt_of_mul_lt_mul_right hchain

theorem int_mul_03_le_07 (W : Nat) : int_mul_03 W ≤ int_mul_07 W := by
  by_cases hW : W = 0
  · subst hW
    decide
  have hW1 : 1 ≤ W := Nat.one_le_iff_ne_zero.mpr hW
  have hN3 : 1 ≤ W * m3 := by
    have : 1 ≤ m3 := by norm_num [m3]
    exact Nat.one_le_iff_ne_zero.mpr (by positivity)
  have hN7 : 1 ≤ W * m7 := by
    have : 1 ≤ m7 := by norm_num [m7]
    exact Nat.one_le_iff_ne_zero.mpr (by positivity)
  have hacc3 := (rnd_accuracy (W * m3) hN3).1
  have hacc7 := (rnd_accuracy (W * m7) hN7).2
  have hconc : m3 * (2 ^ 53 + 1) + 4 * m7 ≤ 4 * m7 * 2 ^ 53 := by norm_num [m3, m7]
  have hX : rhe (W * m3) (log2F (W * m3) - 52) * 2 ^ (log2F (W * m3) - 52)
      ≤ 4 * (rhe (W * m7) (log2F (W * m7) - 52) * 2 ^ (log2F (W * m7) - 52)) := by
    have h1 : rhe (W * m3) (log2F (W * m3) - 52) * 2 ^ (log2F (W * m3) - 52) * 2 ^ 53
        + 4 * (W * m7)
        ≤ 4 * (rhe (W * m7) (log2F (W * m7) - 52) * 2 ^ (log2F (W * m7) - 52)) * 2 ^ 53
          + 4 * (W * m7) := by
      calc rhe (W * m3) (log2F (W * m3) - 52) * 2 ^ (log2F (W * m3) - 52) * 2 ^ 53
          + 4 * (W * m7)
          ≤ (W * m3 * 2 ^ 53 + W * m3) + 4 * (W * m7) := by omega
        _ = W * (m3 * (2 ^ 53 + 1) + 4 * m7) := by ring
        _ ≤ W * (4 * m7 * 2 ^ 53) := Nat.mul_le_mul_left W hconc
        _ = 4 * (W * m7) * 2 ^ 53 := by ring
        _ ≤ 4 * (rhe (W * m7) (log2F (W * m7) - 52) * 2 ^ (log2F (W * m7) - 52)) * 2 ^ 53
            + 4 * (W * m7) := by omega
    have h2 : rhe (W * m3) (log2F (W * m3) - 52) * 2 ^ (log2F (W * m3) - 52) * 2 ^ 53
        ≤ 4 * (rhe (W * m7) (log2F (W * m7) - 52) * 2 ^ (log2F (W * m7) - 52)) * 2 ^ 53 := by
      omega
    exact Nat.le_of_mul_le_mul_right h2 (by positivity)
  unfold int_mul_03 int_mul_07
  calc rhe (W * m3) (log2F (W * m3) - 52) * 2 ^ (log2F (W * m3) - 52) / 2 ^ 54
      ≤ 4 * (rhe (W * m7) (log2F (W * m7) - 52) * 2 ^ (log2F (W * m7) - 52)) / 2 ^ 54 :=
        Nat.div_le_div_right hX
    _ = rhe (W * m7) (log2F (W * m7) - 52) * 2 ^ (log2F (W * m7) - 52) / 2 ^ 52 := by
        rw [show (2 : Nat) ^ 54 = 4 * 2 ^ 52 by norm_num]
        exact Nat.mul_div_mul_left _ _ (by norm_num)

/-- C2 (amended): for every image with `1 ≤ W ≤ 2^53` and `1 ≤ H`,
`detect_regions` returns exactly three regions of full height `H` whose
widths are `int(0.3 W)`, `int(0.7 W) - int(0.3 W)` and `W - int(0.7 W)`
(double-precision products, truncated — not rounded), and the widths sum
to `W`. -/
theorem C2_amended_detect_regions (frame : Image)
    (hW : 1 ≤ frame.w) (hW53 : frame.w ≤ 2 ^ 53) (hH : 1 ≤ frame.h) :
    (detect_regions frame).1.h = frame.h ∧
    (detect_regions frame).2.1.h = frame.h ∧
    (detect_regions frame).2.2.h = frame.h ∧
    (detect_regions frame).1.w = int_mul_03 frame.w ∧
    (detect_regions frame).2.1.w = int_mul_07 frame.w - int_mul_03 frame.w ∧
    (detect_regions frame).2.2.w = frame.w - int_mul_07 frame.w ∧
    (detect_regions frame).1.w + (detect_regions frame).2.1.w +
      (detect_regions frame).2.2.w = frame.w := by
  have h37 := int_mul_03_le_07 frame.w
  have h7 := int_mul_07_lt frame.w hW
  simp only [detect_regions, npSlice]
  omega

/-- Witness for the amended C2 at a concrete 5-by-7 image. -/
theorem C2_amended_detect_regions_witness :
    (detect_regions (Image.mk 7 5 fun _ _ => 0)).1.h = 7 ∧
    (detect_regions (Image.mk 7 5 fun _ _ => 0)).2.1.h = 7 ∧
    (detect_regions (Image.mk 7 5 fun _ _ => 0)).2.2.h = 7 ∧
    (detect_regions (Image.mk 7 5 fun _ _ => 0)).1.w = int_mul_03 5 ∧
    (detect_regions (Image.mk 7 5 fun _ _ => 0)).2.1.w = int_mul_07 5 - int_mul_03 5 ∧
    (detect_regions (Image.mk 7 5 fun _ _ => 0)).2.2.w = 5 - int_mul_07 5 ∧
    (detect_regions (Image.mk 7 5 fun _ _ => 0)).1.w +
      (detect_regions (Image.mk 7 5 fun _ _ => 0)).2.1.w +
      (detect_regions (Image.mk 7 5 fun _ _ => 0)).2.2.w = 5 :=
  C2_amended_detect_regions (Image.mk 7 5 fun _ _ => 0)
    (by decide) (by norm_num) (by decide)

/-- Round-half-to-even of the exact rational `num / den` (the reading of
`round(0.3 * W)` in the claim: Python `round` uses banker's rounding). -/
def roundHE (num den : Nat) : Nat :=
  let q := num / den
  let r := num % den
  if 2 * r < den then q
  else if den < 2 * r then q + 1
  else if q % 2 = 0 then q else q + 1

/-- C2 (counterexample): at width `W = 5` the code produces strip widths
`(1, 2, 2)` — `int(5 * 0.3) = int(1.5) = 1` truncates — whereas the
claimed widths `round(0.3 W), round(0.4 W), W - round(0.3 W) - round(0.4 W)`
are `(2, 2, 1)`. -/
theorem C2_counterexample :
    ((detect_regions (Image.mk 7 5 fun _ _ => 0)).1.w,
      (detect_regions (Image.mk 7 5 fun _ _ => 0)).2.1.w,
      (detect_regions (Image.mk 7 5 fun _ _ => 0)).2.2.w) = (1, 2, 2) ∧
    (roundHE (3 * 5) 10, roundHE (4 * 5) 10,
      5 - roundHE (3 * 5) 10 - roundHE (4 * 5) 10) = (2, 2, 1) ∧
    ¬ ((1, 2, 2) : Nat × Nat × Nat) = (2, 2, 1) := by
  refine ⟨by decide, by decide, by decide⟩

/-- `ImageProcessor.preprocess_image` (`src/src/image_processor.py:13-21`):
grayscale conversion (delegated to the external imaging library,
supplied as a parameter) followed by
`cv2.threshold(gray, 150, 255, THRESH_BINARY_INV)`: every pixel strictly
above 150 becomes 0, every other pixel 255. -/
def preprocess_image (cvtGray : Image → Image) (frame : Image) : Image :=
  let gray := cvtGray frame
  { h := gray.h, w := gray.w, pix := fun i j => if 150 < gray.pix i j then 0 else 255 }

/-- Python `"\n".join`. -/
def joinNL : List Text → Text
  | [] => []
  | [x] => x
  | x :: y :: r => x ++ '\n' :: joinNL (y :: r)

/-- `ImageProcessor.extract_text` (`src/src/image_processor.py:47-66`):
run the OCR engine (external, supplied as a parameter returning the
recognized text of each word, grouped by line) and join every word text
with newlines in detection order. -/
def extract_text (ocr : Image → List (List Text)) (image : Image) : Text :=
  joinNL (ocr image).flatten

/-- `ImageProcessor.process_frame` (`src/src/image_processor.py:68-94`):
`None` in, `(None, None, None)` out; otherwise slice the frame into the
three regions, preprocess each and run OCR on each. -/
def process_frame (cvtGray : Image → Image) (ocr : Image → List (List Text))
    (frame : Option Image) : Option Text × Option Text × Option Text :=
  match frame with
  | none => (none, none, none)
  | some f =>
    let regions := detect_regions f
    let problem_preprocessed := preprocess_image cvtGray regions.1
    let code_preprocessed := preprocess_image cvtGray regions.2.1
    let tests_preprocessed := preprocess_image cvtGray regions.2.2
    (some (extract_text ocr problem_preprocessed),
      some (extract_text ocr code_preprocessed),
      some (extract_text ocr tests_preprocessed))

/-- C10: `process_frame` on a missing frame returns `(None, None, None)`
instead of raising; on any frame it returns exactly three present text
values, one per detected region, each produced by preprocessing then OCR
of that region.  The claim holds for every choice of the external
grayscale and OCR functions. -/
theorem C10_process_frame (cvtGray : Image → Image)
    (ocr : Image → List (List Text)) :
    process_frame cvtGray ocr none = (none, none, none) ∧
    ∀ f : Image,
      process_frame cvtGray ocr (some f)
        = (some (extract_text ocr (preprocess_image cvtGray (detect_regions f).1)),
           some (extract_text ocr (preprocess_image cvtGray (detect_regions f).2.1)),
           some (extract_text ocr (preprocess_image cvtGray (detect_regions f).2.2))) :=
  ⟨rfl, fun _ => rfl⟩

/-! ## The camera stream time gate -/

/-- The state of a `CameraStream` (`src/src/camera_stream.py:8-22`):
the optional IP-camera URL, the configured capture interval, the time of
the last non-skipped capture, and whether a USB camera handle is
connected. -/
structure CameraStreamState where
  camera_url : Option Text
  capture_interval : ℚ
  last_capture_time : ℚ
  camera_connected : Bool

/-- `CameraStream.capture_frame` (`src/src/camera_stream.py:36-66`) as a
state transformer.  `current_time` is the clock reading (`time.time()`);
`ip_read` and `usb_read` are the frames the external camera would
deliver if contacted (`none` models a failed read or a raised request
exception, both of which the code turns into `None`).  The boolean
records whether the camera or the network was accessed at all. -/
def capture_frame (s : CameraStreamState) (current_time : ℚ)
    (ip_read : Option Image) (usb_read : Option Image) :
    CameraStreamState × Option Image × Bool :=
  if current_time - s.last_capture_time < s.capture_interval then
    (s, none, false)
  else
    let s' := { s with last_capture_time := current_time }
    match s.camera_url with
    | some _ => (s', ip_read, true)
    | none =>
      if s.camera_connected then (s', usb_read, true)
      else (s', none, false)

/-- C9: a call made less than `capture_interval` seconds after the last
non-skipped call returns `None` without touching the camera or the
network and leaves the state unchanged; every non-skipped call sets
`last_capture_time` to the current clock reading before attempting the
read, so the time gate advances even when the read fails and `None` is
returned for that reason. -/
theorem C9_capture_frame_gate (s : CameraStreamState) (now : ℚ)
    (ip usb : Option Image) :
    (now - s.last_capture_time < s.capture_interval →
      capture_frame s now ip usb = (s, none, false)) ∧
    (¬ now - s.last_capture_time < s.capture_interval →
      (capture_frame s now ip usb).1 = { s with last_capture_time := now }) := by
  constructor
  · intro h
    simp [capture_frame, h]
  · intro h
    unfold capture_frame
    rw [if_neg h]
    cases s.camera_url with
    | some u => rfl
    | none =>
      by_cases hc : s.camera_connected = true
      · simp [hc]
      · simp at hc
        simp [hc]

/-- Witness for C9: with interval 3 and last capture at time 0, a call
at time 1 is skipped wholesale; a call at time 5 whose USB read fails
still advances the gate to 5. -/
theorem C9_capture_frame_gate_witness :
    capture_frame ⟨none, 3, 0, true⟩ 1 none none = (⟨none, 3, 0, true⟩, none, false) ∧
      (capture_frame ⟨none, 3, 0, true⟩ 5 none none).1 = ⟨none, 3, 5, true⟩ :=
  ⟨(C9_capture_frame_gate ⟨none, 3, 0, true⟩ 1 none none).1 (by norm_num),
    (C9_capture_frame_gate ⟨none, 3, 0, true⟩ 5 none none).2 (by norm_num)⟩

/-! ## The prompt builder -/

/-- Decimal rendering of a natural number. -/
def natToText (n : Nat) : Text := (Nat.repr n).data

/-- The line contributed by the test case at zero-based index `i`:
`f"Test {i+1}: {operation} {input} -> {expected_output}\n"`
(`src/src/code_generator.py:36`). -/
def format_test_line (i : Nat) (t : TestCase) : Text :=
  str "Test " ++ natToText (i + 1) ++ str ": " ++ t.operation ++ str " "
    ++ t.input ++ str " -> " ++ t.expected_output ++ str "\n"

/-- The `for i, test in enumerate(...)` accumulation of
`test_cases_str`. -/
def build_tests_go (i : Nat) : List TestCase → Text
  | [] => []
  | t :: r => format_test_line i t ++ build_tests_go (i + 1) r

/-- `CodeGenerator.build_prompt` (`src/src/code_generator.py:22-54`). -/
def build_prompt (problem_data : ProblemData) : Text :=
  let function_signatures_str := joinNL problem_data.function_signatures
  let test_cases_str := build_tests_go 0 problem_data.test_cases
  str "\nYou are a competitive programming expert. Write Python code to solve the following problem:\n\nProblem Statement:\n"
    ++ problem_data.problem_statement
    ++ str "\n\nFunction Signature:\n"
    ++ function_signatures_str
    ++ str "\n\nTest Cases:\n"
    ++ test_cases_str
    ++ str "\n\nImplement the solution that passes all test cases. The code should be efficient and follow best practices.\nOnly provide the implementation of the required methods, no extra explanations.\n"

theorem build_tests_go_eq (n : Nat) (l : List TestCase) :
    build_tests_go n l
      = ((List.enumFrom n l).map (fun p => format_test_line p.1 p.2)).flatten := by
  induction l generalizing n with
  | nil => rfl
  | cons t r ih =>
    simp [build_tests_go, List.enumFrom, ih (n + 1)]

/-- C8 (amended): `build_prompt` is a deterministic concatenation of the
fixed template with the problem statement, the newline-joined function
signatures, and one line per test case — but each test-case line is
numbered, of the form `"Test <i+1>: <op> <input> -> <expected>"`, not
the bare `"<op> <input> -> <expected>"`. -/
theorem C8_amended_build_prompt (pd : ProblemData) :
    build_prompt pd =
      str "\nYou are a competitive programming expert. Write Python code to solve the following problem:\n\nProblem Statement:\n"
        ++ pd.problem_statement
        ++ str "\n\nFunction Signature:\n"
        ++ joinNL pd.function_signatures
        ++ str "\n\nTest Cases:\n"
        ++ ((pd.test_cases.enum.map (fun p => format_test_line p.1 p.2)).flatten)
        ++ str "\n\nImplement the solution that passes all test cases. The code should be efficient and follow best practices.\nOnly provide the implementation of the required methods, no extra explanations.\n" := by
  unfold build_prompt
  rw [build_tests_go_eq]
  rfl

set_option maxRecDepth 40000 in
/-- C8 (counterexample): for a problem with the single test case
`{operation: "Add", input: "1", expected_output: "2"}`, the prompt
contains the line `"Test 1: Add 1 -> 2"` but no line of the claimed form
`"<op> <input> -> <expected>"` (that is, `"Add 1 -> 2"`). -/
theorem C8_counterexample :
    (str "Test 1: Add 1 -> 2")
        ∈ splitOnSub (str "\n")
          (build_prompt ⟨str "P", [], [⟨str "Add", str "1", str "2"⟩]⟩) ∧
      (str "Add 1 -> 2")
        ∉ splitOnSub (str "\n")
          (build_prompt ⟨str "P", [], [⟨str "Add", str "1", str "2"⟩]⟩) := by
  constructor
  · decide
  · decide

/-! ## Persisting the solution -/

/-- A file system: a map from paths to file contents. -/
def Fs : Type := Text → Option Text

/-- Opening a path for writing and writing `c` replaces any previous
content wholesale. -/
def fsWrite (fs : Fs) (p c : Text) : Fs := fun q => if q = p then some c else fs q

/-- `os.path.basename` for POSIX paths: everything after the last
separator. -/
def pyBasename (p : Text) : Text := p.drop ((pyRFindChar p '/' + 1).toNat)

/-- `os.path.splitext`: split off the extension at the last dot, unless
every character between the last separator and that dot is itself a dot
(so dotfiles keep their name). -/
def pySplitext (p : Text) : Text × Text :=
  let sepIndex := pyRFindChar p '/'
  let dotIndex := pyRFindChar p '.'
  if sepIndex < dotIndex then
    if (pySlice p (sepIndex + 1) dotIndex).any (fun c => c != '.') then
      (pySlice p 0 dotIndex, pySlice p dotIndex p.length)
    else (p, [])
  else (p, [])

/-- `os.path.join` for POSIX paths and two components. -/
def pyJoin (a b : Text) : Text :=
  if b.head? = some '/' then b
  else if a = [] then b
  else if a.getLast? = some '/' then a ++ b
  else a ++ '/' :: b

/-- Four-digit lower-case hexadecimal rendering. -/
def hex4 (n : Nat) : Text :=
  [hexDigitChar (n / 4096 % 16), hexDigitChar (n / 256 % 16),
    hexDigitChar (n / 16 % 16), hexDigitChar (n % 16)]

/-- Serialization of one character under `json.dump`'s default
`ensure_ascii=True`: characters outside `0x20..0x7e` are escaped. -/
def escCharAscii (c : Char) : Text :=
  if c = '"' then ['\\', '"']
  else if c = '\\' then ['\\', '\\']
  else if c = Char.ofNat 8 then ['\\', 'b']
  else if c = '\t' then ['\\', 't']
  else if c = '\n' then ['\\', 'n']
  else if c = Char.ofNat 12 then ['\\', 'f']
  else if c = '\r' then ['\\', 'r']
  else if c.toNat < 32 then '\\' :: 'u' :: hex4 c.toNat
  else if c.toNat < 127 then [c]
  else if c.toNat < 65536 then '\\' :: 'u' :: hex4 c.toNat
  else
    '\\' :: 'u' :: hex4 (55296 + (c.toNat - 65536) / 1024)
      ++ '\\' :: 'u' :: hex4 (56320 + (c.toNat - 65536) % 1024)

/-- ASCII-only JSON string literal. -/
def encStrAscii (s : Text) : Text :=
  '"' :: (s.foldr (fun c acc => escCharAscii c ++ acc) [] ++ ['"'])

/-- Comma-newline-indent separated join used by `json.dump(…, indent=2)`
inside a list. -/
def joinSep (sep : Text) : List Text → Text
  | [] => []
  | [x] => x
  | x :: y :: rest => x ++ sep ++ joinSep sep (y :: rest)

/-- `json.dump(…, indent=2)` rendering of one test-case object nested
inside the `test_cases` list. -/
def tc_dump (t : TestCase) : Text :=
  str "\x7b\n      \"operation\": " ++ encStrAscii t.operation
    ++ str ",\n      \"input\": " ++ encStrAscii t.input
    ++ str ",\n      \"expected_output\": " ++ encStrAscii t.expected_output
    ++ str "\n    \x7d"

/-- `json.dump(…, indent=2)` rendering of a list one level deep (empty
lists stay on one line). -/
def list_dump (items : List Text) : Text :=
  match items with
  | [] => str "[]"
  | _ => str "[\n    " ++ joinSep (str ",\n    ") items ++ str "\n  ]"

/-- `json.dump(result, f, indent=2)` rendering of the full result, in
the repository's field order. -/
def info_dump (r : SolutionResult) : Text :=
  str "\x7b\n  \"problem_statement\": " ++ encStrAscii r.problem_statement
    ++ str ",\n  \"function_signatures\": "
    ++ list_dump (r.function_signatures.map encStrAscii)
    ++ str ",\n  \"test_cases\": " ++ list_dump (r.test_cases.map tc_dump)
    ++ str ",\n  \"solution\": " ++ encStrAscii r.solution
    ++ str "\n\x7d"

/-- `save_solution` (`gemini_leetcode_solver.py:288-315` and, textually
identically, `leetcode_vision_solver.py:312-339`): write the solution
body to `<base>_solution.py`, then the serialized result to
`<base>_info.json`, and return the solution path. -/
def save_solution (fs : Fs) (output_dir : Text) (result : SolutionResult)
    (image_filename : Text) : Fs × Text :=
  let base_filename := (pySplitext (pyBasename image_filename)).1
  let solution_file := pyJoin output_dir (base_filename ++ str "_solution.py")
  let fs1 := fsWrite fs solution_file result.solution
  let info_file := pyJoin output_dir (base_filename ++ str "_info.json")
  let fs2 := fsWrite fs1 info_file (info_dump result)
  (fs2, solution_file)

theorem pyJoin_cancel (d x y : Text) (hx : x.head? = y.head?)
    (hjoin : pyJoin d x = pyJoin d y) : x = y := by
  unfold pyJoin at hjoin
  by_cases h1 : x.head? = some '/'
  · have h1y : y.head? = some '/' := by rw [← hx]; exact h1
    rw [if_pos h1, if_pos h1y] at hjoin
    exact hjoin
  · have h1y : ¬ y.head? = some '/' := by rw [← hx]; exact h1
    rw [if_neg h1, if_neg h1y] at hjoin
    by_cases hd : d = []
    · rw [if_pos hd, if_pos hd] at hjoin
      exact hjoin
    · rw [if_neg hd, if_neg hd] at hjoin
      by_cases hl : d.getLast? = some '/'
      · rw [if_pos hl, if_pos hl] at hjoin
        exact List.append_cancel_left hjoin
      · rw [if_neg hl, if_neg hl] at hjoin
        have h2 := List.append_cancel_left hjoin
        simpa using h2

theorem pyJoin_suffix_ne (d b : Text) :
    pyJoin d (b ++ str "_solution.py") ≠ pyJoin d (b ++ str "_info.json") := by
  intro heq
  have hx : (b ++ str "_solution.py").head? = (b ++ str "_info.json").head? := by
    cases b with
    | nil => decide
    | cons a t => simp
  have := pyJoin_cancel d _ _ hx heq
  have h2 := List.append_cancel_left this
  exact absurd h2 (by decide)

/-- C6: `save_solution` writes exactly two files — the solution body at
`<base>_solution.py` and the serialized result at `<base>_info.json` —
with contents equal to the inputs; the two paths are distinct; no other
path changes; re-running with the same inputs overwrites both files and
leaves the file system unchanged (idempotent); the returned path is the
solution file. -/
theorem C6_save_solution (fs : Fs) (dir : Text) (r : SolutionResult) (img : Text) :
    pyJoin dir ((pySplitext (pyBasename img)).1 ++ str "_solution.py")
        ≠ pyJoin dir ((pySplitext (pyBasename img)).1 ++ str "_info.json") ∧
    (save_solution fs dir r img).1
        (pyJoin dir ((pySplitext (pyBasename img)).1 ++ str "_solution.py"))
        = some r.solution ∧
    (save_solution fs dir r img).1
        (pyJoin dir ((pySplitext (pyBasename img)).1 ++ str "_info.json"))
        = some (info_dump r) ∧
    (∀ q, q ≠ pyJoin dir ((pySplitext (pyBasename img)).1 ++ str "_solution.py") →
      q ≠ pyJoin dir ((pySplitext (pyBasename img)).1 ++ str "_info.json") →
      (save_solution fs dir r img).1 q = fs q) ∧
    (save_solution (save_solution fs dir r img).1 dir r img).1
        = (save_solution fs dir r img).1 ∧
    (save_solution fs dir r img).2
        = pyJoin dir ((pySplitext (pyBasename img)).1 ++ str "_solution.py") := by
  have hne := pyJoin_suffix_ne dir (pySplitext (pyBasename img)).1
  refine ⟨hne, ?_, ?_, ?_, ?_, rfl⟩
  · show fsWrite (fsWrite fs _ _) _ _ _ = _
    unfold fsWrite
    rw [if_neg hne, if_pos rfl]
  · show fsWrite (fsWrite fs _ _) _ _ _ = _
    unfold fsWrite
    rw [if_pos rfl]
  · intro q hq1 hq2
    show fsWrite (fsWrite fs _ _) _ _ _ = _
    unfold fsWrite
    rw [if_neg hq2, if_neg hq1]
  · funext q
    show fsWrite (fsWrite (fsWrite (fsWrite fs _ _) _ _) _ _) _ _ _
        = fsWrite (fsWrite fs _ _) _ _ _
    unfold fsWrite
    by_cases h2 : q = pyJoin dir ((pySplitext (pyBasename img)).1 ++ str "_info.json")
    · rw [if_pos h2, if_pos h2]
    · rw [if_neg h2, if_neg h2]
      by_cases h1 : q = pyJoin dir ((pySplitext (pyBasename img)).1 ++ str "_solution.py")
      · rw [if_pos h1, if_pos h1]
      · rw [if_neg h1]

/-- Witness for C6 at a concrete file system, output directory, result
and image path. -/
theorem C6_save_solution_witness :
    (save_solution (fun _ => none) (str "solutions") ⟨str "p", [], [], str "pass"⟩
        (str "shots/leetcode_1.jpg")).1
        (pyJoin (str "solutions")
          ((pySplitext (pyBasename (str "shots/leetcode_1.jpg"))).1 ++ str "_solution.py"))
        = some (str "pass") ∧
      (save_solution (fun _ => none) (str "solutions") ⟨str "p", [], [], str "pass"⟩
        (str "shots/leetcode_1.jpg")).2
        = pyJoin (str "solutions")
          ((pySplitext (pyBasename (str "shots/leetcode_1.jpg"))).1 ++ str "_solution.py") :=
  ⟨(C6_save_solution (fun _ => none) (str "solutions") ⟨str "p", [], [], str "pass"⟩
      (str "shots/leetcode_1.jpg")).2.1,
    (C6_save_solution (fun _ => none) (str "solutions") ⟨str "p", [], [], str "pass"⟩
      (str "shots/leetcode_1.jpg")).2.2.2.2.2⟩

/-! ## The problem parser

Shallow embedding of the three regular expressions of
`src/src/problem_parser.py`, each implemented with the match semantics
of Python's `re` module (leftmost match, lazy and greedy repetition as
written, `DOTALL` and `MULTILINE` flags as in the source). -/

/-- Python regex `\w` over ASCII text. -/
def pyIsWordChar (c : Char) : Bool := c.isAlphanum || c == '_'

/-- The regex `Scenario(.*?)(?:Unit tests|$)` with `re.DOTALL`
(`extract_problem_statement`, `src/src/problem_parser.py:10-24`): text
between the first `Scenario` and the following `Unit tests`, else up to
the end of the text (`$` also matches just before one trailing
newline); stripped.  Without a `Scenario` marker the whole text is
returned verbatim. -/
def extract_problem_statement (text : Text) : Text :=
  match findSub (str "Scenario") text with
  | none => text
  | some i =>
    let content := text.drop (i + (str "Scenario").length)
    match findSub (str "Unit tests") content with
    | some j => pyStrip (content.take j)
    | none =>
      if content.getLast? = some '\n' then pyStrip content.dropLast
      else pyStrip content

/-- After `def`: match `\s+(\w+)\s*\(`; returns the text after the
opening parenthesis. -/
def sigHead (s : Text) : Option Text :=
  let ws := s.takeWhile pyIsSpace
  let s1 := s.dropWhile pyIsSpace
  if ws.isEmpty then none
  else
    let name := s1.takeWhile pyIsWordChar
    let s2 := s1.dropWhile pyIsWordChar
    if name.isEmpty then none
    else
      match s2.dropWhile pyIsSpace with
      | '(' :: rest => some rest
      | _ => none

/-- After a candidate closing parenthesis: match `\s*(->\s*\w+)?:`,
trying the optional group first; returns the text after the colon. -/
def sigTail (s : Text) : Option Text :=
  let s1 := s.dropWhile pyIsSpace
  let withGroup : Option Text :=
    match s1 with
    | '-' :: '>' :: s2 =>
      let s3 := s2.dropWhile pyIsSpace
      let ty := s3.takeWhile pyIsWordChar
      let s4 := s3.dropWhile pyIsWordChar
      if ty.isEmpty then none
      else
        match s4 with
        | ':' :: rest => some rest
        | _ => none
    | _ => none
  match withGroup with
  | some rest => some rest
  | none =>
    match s1 with
    | ':' :: rest => some rest
    | _ => none

/-- The lazy `(.*?)\)` of the signature pattern: try each closing
parenthesis left to right (backtracking over the candidates), matching
the tail after it. -/
def sigClose : Nat → Text → Option Text
  | 0, _ => none
  | fuel + 1, s =>
    match findSub [')'] s with
    | none => none
    | some k =>
      let after := s.drop (k + 1)
      match sigTail after with
      | some rest => some rest
      | none => sigClose fuel after

/-- One attempt of the whole pattern `def\s+(\w+)\s*\((.*?)\)\s*(->\s*\w+)?:`
at the current position; on success returns the matched text and the
remainder. -/
def sigMatchAt (s : Text) : Option (Text × Text) :=
  match s with
  | 'd' :: 'e' :: 'f' :: s0 =>
    match sigHead s0 with
    | none => none
    | some afterParen =>
      match sigClose afterParen.length afterParen with
      | none => none
      | some rest => some (s.take (s.length - rest.length), rest)
  | _ => none

/-- The `re.finditer` scan: try every position left to right, resuming
after each match. -/
def findSignatures : Nat → Text → List Text
  | 0, _ => []
  | fuel + 1, s =>
    match s with
    | [] => []
    | c :: rest =>
      match sigMatchAt (c :: rest) with
      | some (sig, rem) => sig :: findSignatures fuel rem
      | none => findSignatures fuel rest

/-- `extract_function_signature` (`src/src/problem_parser.py:26-45`):
every non-overlapping match of the function-definition pattern, in
order of appearance. -/
def extract_function_signature (text : Text) : List Text :=
  findSignatures text.length text

/-- The alternation `(Add|Delete|Median of)`, tried left to right. -/
def opAt (s : Text) : Option (Text × Text) :=
  if (str "Add").isPrefixOf s then some (str "Add", s.drop 3)
  else if (str "Delete").isPrefixOf s then some (str "Delete", s.drop 6)
  else if (str "Median of").isPrefixOf s then some (str "Median of", s.drop 9)
  else none

/-- The lazy `.*?` of group 2 followed by `(?:is|->)`: grow within the
line until the separator matches; `acc` holds the growing group in
reverse. -/
def tcGroup2 : Nat → Text → Text → Option (Text × Text)
  | 0, _, _ => none
  | fuel + 1, acc, s =>
    if (str "is").isPrefixOf s ∨ (str "->").isPrefixOf s then
      some (acc.reverse, s.drop 2)
    else
      match s with
      | [] => none
      | c :: rest =>
        if c = '\n' then none
        else tcGroup2 fuel (c :: acc) rest

/-- The lazy `.*?` before `(\d.*?)`: scan within the line for the first
digit from which the rest of the pattern matches, backtracking past
digits where it does not. -/
def tcFindDigit : Nat → Text → Option (Text × Text)
  | 0, _ => none
  | fuel + 1, s =>
    match s with
    | [] => none
    | c :: rest =>
      if c = '\n' then none
      else if c.isDigit then
        match tcGroup2 rest.length [c] rest with
        | some r => some r
        | none => tcFindDigit fuel rest
      else tcFindDigit fuel rest

/-- After the separator: greedy `\s*` (which may cross newlines), then
the lazy `(.*?)$` with `re.MULTILINE`: group 3 runs to the next newline
or the end of the text, and the match ends at that position. -/
def tcGroup3 (s : Text) : Text × Text :=
  let s1 := s.dropWhile pyIsSpace
  (s1.takeWhile (fun c => c != '\n'), s1.dropWhile (fun c => c != '\n'))

/-- One attempt of the whole test-case pattern
`(Add|Delete|Median of).*?(\d.*?)(?:is|->)\s*(.*?)$` at the current
position, with the `.strip()` calls of the source applied to the three
groups. -/
def tcMatchAt (s : Text) : Option (TestCase × Text) :=
  match opAt s with
  | none => none
  | some (op, s1) =>
    match tcFindDigit s1.length s1 with
    | none => none
    | some (g2, s2) =>
      let g3 := tcGroup3 s2
      some (⟨pyStrip op, pyStrip g2, pyStrip g3.1⟩, g3.2)

/-- The `re.finditer` scan for test cases. -/
def findTestCases : Nat → Text → List TestCase
  | 0, _ => []
  | fuel + 1, s =>
    match s with
    | [] => []
    | c :: rest =>
      match tcMatchAt (c :: rest) with
      | some (tc, rem) => tc :: findTestCases fuel rem
      | none => findTestCases fuel rest

/-- `extract_test_cases` (`src/src/problem_parser.py:47-76`). -/
def extract_test_cases (text : Text) : List TestCase :=
  findTestCases text.length text

/-- `ProblemParser.parse_content` (`src/src/problem_parser.py:78-98`). -/
def parse_content (problem_text function_signature_text test_cases_text : Text) :
    ProblemData :=
  { problem_statement := extract_problem_statement problem_text
    function_signatures := extract_function_signature function_signature_text
    test_cases := extract_test_cases test_cases_text }

/-- C3: `parse_content` is a total function: on every input triple it
returns a `ProblemData` whose three fields are the outputs of the three
extractors, and empty signature and test-case lists are ordinary
results, not errors — both on empty input and on nonempty text matching
no pattern, where the problem statement falls back to the whole text
verbatim. -/
theorem C3_parse_content_total (pt ft tt : Text) :
    parse_content pt ft tt =
      { problem_statement := extract_problem_statement pt
        function_signatures := extract_function_signature ft
        test_cases := extract_test_cases tt } ∧
    parse_content [] [] [] = ⟨[], [], []⟩ ∧
    parse_content (str "no markers") (str "no matches") (str "no tests")
      = ⟨str "no markers", [], []⟩ :=
  ⟨rfl, by decide, by decide⟩

/-- C7 helper: the scan finds nothing in text free of every operation
keyword. -/
theorem findTestCases_eq_nil (fuel : Nat) :
    ∀ s : Text, s.length ≤ fuel →
      containsSub s (str "Add") = false →
      containsSub s (str "Delete") = false →
      containsSub s (str "Median of") = false →
      findTestCases fuel s = [] := by
  induction fuel with
  | zero =>
    intro s hlen _ _ _
    have : s = [] := List.length_eq_zero.mp (Nat.le_zero.mp hlen)
    subst this
    rfl
  | succ f ih =>
    intro s hlen h1 h2 h3
    cases s with
    | nil => rfl
    | cons c rest =>
      rw [containsSub_cons, Bool.or_eq_false_iff] at h1 h2 h3
      have hop : opAt (c :: rest) = none := by
        unfold opAt
        rw [h1.1, h2.1, h3.1]
        simp
      have hmatch : tcMatchAt (c :: rest) = none := by
        unfold tcMatchAt
        rw [hop]
      rw [show findTestCases (f + 1) (c :: rest)
          = (match tcMatchAt (c :: rest) with
            | some (tc, rem) => tc :: findTestCases f rem
            | none => findTestCases f rest) from rfl]
      rw [hmatch]
      exact ih rest (by simp at hlen; omega) h1.2 h2.2 h3.2

set_option maxRecDepth 40000 in
/-- C7: on `"Add 1, 2, 5 -> [1, 2, 5]\nDelete 3 -> []"` the extractor
yields exactly the two records
`{operation: "Add", input: "1, 2, 5", expected_output: "[1, 2, 5]"}` and
`{operation: "Delete", input: "3", expected_output: "[]"}` in order;
lines matching no operation keyword are silently dropped, and an
unmatched middle line does not disturb the surrounding records. -/
theorem C7_extract_test_cases :
    extract_test_cases (str "Add 1, 2, 5 -> [1, 2, 5]\nDelete 3 -> []")
      = [⟨str "Add", str "1, 2, 5", str "[1, 2, 5]"⟩,
         ⟨str "Delete", str "3", str "[]"⟩] ∧
    extract_test_cases (str "Add 1 -> 2\nremove 3 gives 4\nDelete 5 -> 6")
      = [⟨str "Add", str "1", str "2"⟩, ⟨str "Delete", str "5", str "6"⟩] ∧
    ∀ s : Text, containsSub s (str "Add") = false →
      containsSub s (str "Delete") = false →
      containsSub s (str "Median of") = false →
      extract_test_cases s = [] := by
  refine ⟨by decide, by decide, ?_⟩
  intro s h1 h2 h3
  exact findTestCases_eq_nil s.length s (Nat.le_refl _) h1 h2 h3

set_option maxRecDepth 40000 in
/-- Witness for C7's keyword-free clause at a concrete text. -/
theorem C7_extract_test_cases_witness :
    extract_test_cases (str "no operation keywords anywhere 1 -> 2") = [] :=
  C7_extract_test_cases.2.2 (str "no operation keywords anywhere 1 -> 2")
    (by decide) (by decide) (by decide)

end Spec2Proof
